import Mathlib

set_option linter.unusedSectionVars false

/-!
# Verification of the hulk cycler engine and pose-detection post-processing

This file contains a shallow embedding of:

* `non_maximum_suppression` from `crates/object_detection/src/pose_detection.rs`,
* the runtime semantics of the cycler code emitted by
  `crates/code_generation/src/cyclers.rs` (the generated `cycle` method in
  `Run` and `Replay` execution modes, the generated `start` method's
  thread loop, and the recording frame layout),

together with theorems settling the specification claims about them.

Machine floats (`f32` scores, IoU values) are modelled by `ℚ`: the code under
scrutiny only compares them through the total order (`total_cmp`, `<`), so any
linearly ordered field is a faithful carrier.  Values stored in databases and
recording frames are modelled by an abstract type `Val`; field paths, node
names and cycler-instance names by `String`.
-/

namespace Hulk

/-! ## Pose detection: non-maximum suppression

Embedding of `non_maximum_suppression` (pose_detection.rs, lines 249-276).
`BoundingBox` carries its detection `score` and an opaque geometric payload
`box_`; the IoU computation (`BoundingBox::iou`, defined in the `geometry`
crate, outside the analysed sources) is passed in as a function `iou` on the
geometric payloads. -/

structure BoundingBox (Box : Type) where
  score : ℚ
  box_ : Box
deriving DecidableEq

structure HumanPose (Box Kp : Type) where
  bounding_box : BoundingBox Box
  keypoints : Kp
deriving DecidableEq

section Nms

variable {Box Kp : Type}

/-- The ascending comparison used by `sort_unstable_by` with
`total_cmp` on bounding-box scores. -/
def scoreLe (p1 p2 : HumanPose Box Kp) : Bool :=
  p1.bounding_box.score ≤ p2.bounding_box.score

/-- The `while let Some(detection) = candiate_pose.pop()` loop of
`non_maximum_suppression`: repeatedly pop the last (highest-scoring) element,
filter the remaining candidates to those with IoU strictly below the
threshold, and push the popped detection. -/
def nmsLoop (iou : Box → Box → ℚ) (iou_threshold : ℚ) :
    List (HumanPose Box Kp) → List (HumanPose Box Kp)
  | [] => []
  | a :: as =>
    let detection := (a :: as).getLast (List.cons_ne_nil a as)
    let remaining := (a :: as).dropLast.filter
      (fun detection_candidate =>
        iou detection.bounding_box.box_ detection_candidate.bounding_box.box_
          < iou_threshold)
    detection :: nmsLoop iou iou_threshold remaining
termination_by l => l.length
decreasing_by
  calc ((a :: as).dropLast.filter _).length ≤ (a :: as).dropLast.length :=
        List.length_filter_le _ _
    _ < (a :: as).length := by
        rw [List.length_dropLast]
        simp

/-- `non_maximum_suppression` (pose_detection.rs:249): sort candidates by
ascending bounding-box score, then run the pop/filter loop. -/
def non_maximum_suppression (iou : Box → Box → ℚ) (candiate_pose : List (HumanPose Box Kp))
    (iou_threshold : ℚ) : List (HumanPose Box Kp) :=
  nmsLoop iou iou_threshold (candiate_pose.mergeSort scoreLe)

theorem nmsLoop_eq_nil (iou : Box → Box → ℚ) (thr : ℚ) :
    nmsLoop iou thr ([] : List (HumanPose Box Kp)) = [] := by
  rw [nmsLoop]

theorem nmsLoop_eq_cons (iou : Box → Box → ℚ) (thr : ℚ)
    (l : List (HumanPose Box Kp)) (h : l ≠ []) :
    nmsLoop iou thr l =
      l.getLast h :: nmsLoop iou thr
        (l.dropLast.filter
          (fun c => iou (l.getLast h).bounding_box.box_ c.bounding_box.box_ < thr)) := by
  match l, h with
  | a :: as, _ => rw [nmsLoop]

/-- Auxiliary induction principle: strong induction on list length. -/
theorem nmsLoop_length_induction
    (motive : List (HumanPose Box Kp) → Prop)
    (step : ∀ l, (∀ l', l'.length < l.length → motive l') → motive l) :
    ∀ l, motive l := fun l =>
  step l (fun l' _ => nmsLoop_length_induction motive step l')
termination_by l => l.length

theorem nmsLoop_subperm (iou : Box → Box → ℚ) (thr : ℚ) :
    ∀ l : List (HumanPose Box Kp), (nmsLoop iou thr l).Subperm l := by
  refine nmsLoop_length_induction _ (fun l ih => ?_)
  by_cases h : l = []
  · subst h; rw [nmsLoop_eq_nil]
  · rw [nmsLoop_eq_cons iou thr l h]
    set rem := l.dropLast.filter
      (fun c => iou (l.getLast h).bounding_box.box_ c.bounding_box.box_ < thr) with hrem
    have hremlen : rem.length < l.length := by
      calc rem.length ≤ l.dropLast.length := List.length_filter_le _ _
        _ < l.length := by
            rw [List.length_dropLast]
            have : l.length ≠ 0 := fun hc => h (List.length_eq_zero.mp hc)
            omega
    have hrec : (nmsLoop iou thr rem).Subperm rem := ih rem hremlen
    have hsub : rem.Sublist l.dropLast := List.filter_sublist _
    obtain ⟨m, hm, hs⟩ := hrec.trans hsub.subperm
    have hcons : (l.getLast h :: nmsLoop iou thr rem).Subperm
        (l.getLast h :: l.dropLast) :=
      ⟨l.getLast h :: m, hm.cons _, hs.cons₂ _⟩
    have hperm : List.Perm (l.getLast h :: l.dropLast) l := by
      have h1 : List.Perm (l.getLast h :: l.dropLast) (l.dropLast ++ [l.getLast h]) :=
        (List.perm_append_singleton _ _).symm
      rw [List.dropLast_append_getLast h] at h1
      exact h1
    exact hcons.trans hperm.subperm

theorem nmsLoop_mem_subset (iou : Box → Box → ℚ) (thr : ℚ)
    (l : List (HumanPose Box Kp)) : ∀ p ∈ nmsLoop iou thr l, p ∈ l :=
  fun _ hp => (nmsLoop_subperm iou thr l).subset hp

/-- If the input is sorted ascending by score, the output is sorted
descending (pairwise, later scores are ≤ earlier scores). -/
theorem nmsLoop_sorted_descending (iou : Box → Box → ℚ) (thr : ℚ) :
    ∀ l : List (HumanPose Box Kp),
      l.Pairwise (fun p1 p2 => p1.bounding_box.score ≤ p2.bounding_box.score) →
      (nmsLoop iou thr l).Pairwise
        (fun p1 p2 => p2.bounding_box.score ≤ p1.bounding_box.score) := by
  refine nmsLoop_length_induction _ (fun l ih hsorted => ?_)
  by_cases h : l = []
  · subst h; rw [nmsLoop_eq_nil]; exact List.Pairwise.nil
  · rw [nmsLoop_eq_cons iou thr l h]
    set d := l.getLast h with hd
    set rem := l.dropLast.filter
      (fun c => iou d.bounding_box.box_ c.bounding_box.box_ < thr) with hrem
    have hremlen : rem.length < l.length := by
      calc rem.length ≤ l.dropLast.length := List.length_filter_le _ _
        _ < l.length := by
            rw [List.length_dropLast]
            have : l.length ≠ 0 := fun hc => h (List.length_eq_zero.mp hc)
            omega
    have hsplit : l.dropLast ++ [d] = l := List.dropLast_append_getLast h
    have hsorted' :
        (l.dropLast ++ [d]).Pairwise
          (fun p1 p2 => p1.bounding_box.score ≤ p2.bounding_box.score) := by
      rw [hsplit]; exact hsorted
    have hle : ∀ x ∈ l.dropLast, x.bounding_box.score ≤ d.bounding_box.score := by
      intro x hx
      have := (List.pairwise_append.mp hsorted').2.2 x hx d (List.mem_singleton_self d)
      exact this
    have hdroplast_sorted :
        l.dropLast.Pairwise (fun p1 p2 => p1.bounding_box.score ≤ p2.bounding_box.score) :=
      (List.pairwise_append.mp hsorted').1
    have hrem_sorted :
        rem.Pairwise (fun p1 p2 => p1.bounding_box.score ≤ p2.bounding_box.score) :=
      hdroplast_sorted.sublist (List.filter_sublist _)
    refine List.Pairwise.cons ?_ (ih rem hremlen hrem_sorted)
    intro y hy
    have hyl : y ∈ rem := nmsLoop_mem_subset iou thr rem y hy
    exact hle y (List.mem_of_mem_filter hyl)

/-- Every pair of retained poses has IoU (computed from the earlier-retained
pose towards the later-retained one) strictly below the threshold. -/
theorem nmsLoop_pairwise_iou (iou : Box → Box → ℚ) (thr : ℚ) :
    ∀ l : List (HumanPose Box Kp),
      (nmsLoop iou thr l).Pairwise
        (fun p1 p2 => iou p1.bounding_box.box_ p2.bounding_box.box_ < thr) := by
  refine nmsLoop_length_induction _ (fun l ih => ?_)
  by_cases h : l = []
  · subst h; rw [nmsLoop_eq_nil]; exact List.Pairwise.nil
  · rw [nmsLoop_eq_cons iou thr l h]
    set d := l.getLast h with hd
    set rem := l.dropLast.filter
      (fun c => iou d.bounding_box.box_ c.bounding_box.box_ < thr) with hrem
    have hremlen : rem.length < l.length := by
      calc rem.length ≤ l.dropLast.length := List.length_filter_le _ _
        _ < l.length := by
            rw [List.length_dropLast]
            have : l.length ≠ 0 := fun hc => h (List.length_eq_zero.mp hc)
            omega
    refine List.Pairwise.cons ?_ (ih rem hremlen)
    intro y hy
    have hyrem : y ∈ rem := nmsLoop_mem_subset iou thr rem y hy
    have := List.of_mem_filter hyrem
    simpa using this

/-- Every pose discarded by the loop has IoU at least the threshold with some
retained pose of equal or higher score (input sorted ascending by score). -/
theorem nmsLoop_discarded (iou : Box → Box → ℚ) (thr : ℚ) :
    ∀ l : List (HumanPose Box Kp),
      l.Pairwise (fun p1 p2 => p1.bounding_box.score ≤ p2.bounding_box.score) →
      ∀ p ∈ l, p ∉ nmsLoop iou thr l →
        ∃ r ∈ nmsLoop iou thr l,
          thr ≤ iou r.bounding_box.box_ p.bounding_box.box_ ∧
          p.bounding_box.score ≤ r.bounding_box.score := by
  refine nmsLoop_length_induction _ (fun l ih hsorted p hp hpout => ?_)
  by_cases h : l = []
  · subst h; simp at hp
  · rw [nmsLoop_eq_cons iou thr l h] at hpout ⊢
    set d := l.getLast h with hd
    set rem := l.dropLast.filter
      (fun c => iou d.bounding_box.box_ c.bounding_box.box_ < thr) with hrem
    have hremlen : rem.length < l.length := by
      calc rem.length ≤ l.dropLast.length := List.length_filter_le _ _
        _ < l.length := by
            rw [List.length_dropLast]
            have : l.length ≠ 0 := fun hc => h (List.length_eq_zero.mp hc)
            omega
    have hsplit : l.dropLast ++ [d] = l := List.dropLast_append_getLast h
    have hsorted' :
        (l.dropLast ++ [d]).Pairwise
          (fun p1 p2 => p1.bounding_box.score ≤ p2.bounding_box.score) := by
      rw [hsplit]; exact hsorted
    have hle : ∀ x ∈ l.dropLast, x.bounding_box.score ≤ d.bounding_box.score :=
      fun x hx => (List.pairwise_append.mp hsorted').2.2 x hx d (List.mem_singleton_self d)
    have hrem_sorted :
        rem.Pairwise (fun p1 p2 => p1.bounding_box.score ≤ p2.bounding_box.score) :=
      (List.pairwise_append.mp hsorted').1.sublist (List.filter_sublist _)
    have hpne : p ≠ d := fun hc => hpout (hc ▸ List.mem_cons_self _ _)
    have hpdrop : p ∈ l.dropLast := by
      have hmem : p ∈ l.dropLast ++ [d] := by rw [hsplit]; exact hp
      rcases List.mem_append.mp hmem with h' | h'
      · exact h'
      · exact absurd (List.mem_singleton.mp h') hpne
    by_cases hpred : iou d.bounding_box.box_ p.bounding_box.box_ < thr
    · -- p survived this round's filter: recurse
      have hprem : p ∈ rem := List.mem_filter.mpr ⟨hpdrop, by simpa using hpred⟩
      have hpout' : p ∉ nmsLoop iou thr rem := fun hc => hpout (List.mem_cons_of_mem _ hc)
      obtain ⟨r, hr, hiou, hscore⟩ := ih rem hremlen hrem_sorted p hprem hpout'
      exact ⟨r, List.mem_cons_of_mem _ hr, hiou, hscore⟩
    · -- p was filtered out against d
      exact ⟨d, List.mem_cons_self _ _, le_of_not_lt hpred, hle p hpdrop⟩

/-- The sorted input fed to the loop is sorted ascending. -/
theorem mergeSort_scoreLe_sorted (l : List (HumanPose Box Kp)) :
    (l.mergeSort scoreLe).Pairwise
      (fun p1 p2 => p1.bounding_box.score ≤ p2.bounding_box.score) := by
  have h := @List.sorted_mergeSort _ scoreLe
    (fun a b c hab hbc => by
      simp only [scoreLe, decide_eq_true_eq] at *
      exact le_trans hab hbc)
    (fun a b => by
      simp only [scoreLe, Bool.or_eq_true, decide_eq_true_eq]
      exact le_total _ _)
    l
  refine h.imp ?_
  intro a b hab
  simpa [scoreLe] using hab

/-- C10: `non_maximum_suppression` returns a sub-multiset of its input,
ordered by non-increasing bounding-box score, in which the IoU from each
earlier-retained pose to each later-retained pose is strictly below the
threshold, and every discarded input pose has IoU at least the threshold with
some retained pose of equal or higher score. -/
theorem non_maximum_suppression_spec (iou : Box → Box → ℚ)
    (candidates : List (HumanPose Box Kp)) (iou_threshold : ℚ) :
    (non_maximum_suppression iou candidates iou_threshold).Subperm candidates ∧
    (non_maximum_suppression iou candidates iou_threshold).Pairwise
      (fun p1 p2 => p2.bounding_box.score ≤ p1.bounding_box.score) ∧
    (non_maximum_suppression iou candidates iou_threshold).Pairwise
      (fun p1 p2 => iou p1.bounding_box.box_ p2.bounding_box.box_ < iou_threshold) ∧
    (∀ p ∈ candidates, p ∉ non_maximum_suppression iou candidates iou_threshold →
      ∃ r ∈ non_maximum_suppression iou candidates iou_threshold,
        iou_threshold ≤ iou r.bounding_box.box_ p.bounding_box.box_ ∧
        p.bounding_box.score ≤ r.bounding_box.score) := by
  unfold non_maximum_suppression
  have hsorted := mergeSort_scoreLe_sorted candidates
  refine ⟨?_, ?_, ?_, ?_⟩
  · exact (nmsLoop_subperm iou iou_threshold _).trans
      (List.mergeSort_perm candidates scoreLe).subperm
  · exact nmsLoop_sorted_descending iou iou_threshold _ hsorted
  · exact nmsLoop_pairwise_iou iou iou_threshold _
  · intro p hp hpout
    have hp' : p ∈ candidates.mergeSort scoreLe := by
      rw [List.mem_mergeSort]; exact hp
    exact nmsLoop_discarded iou iou_threshold _ hsorted p hp' hpout

end Nms

/-! ## The generated `start` method: thread loop and shared cancellation token

Embedding of the thread body emitted by `generate_start_method`
(cyclers.rs, lines 382-407):

```
while !keep_running.is_cancelled() {
    if let Err(error) = self.cycle() {
        keep_running.cancel();
        return Err(error).wrap_err_with(...);
    }
}
Ok(())
```

Each cycler thread is modelled by the ordered list of results its successive
`cycle()` calls would produce (`pending`) and its terminal result once the
closure has returned (`done`).  The shared `CancellationToken` is a boolean
(`keepRunning = true` means cancelled).  A step of the interleaved system
schedules one still-running thread for one trip around its `while` loop. -/

/-- One cycler thread of a group started with a shared cancellation token. -/
structure ThreadState (E : Type) where
  pending : List (Except E Unit)
  done : Option (Except E Unit)

/-- The cycler group: the shared token plus every thread's state. -/
structure GroupState (E : Type) where
  cancelled : Bool
  threads : List (ThreadState E)

/-- One loop iteration of one scheduled thread of the generated `start` loop. -/
inductive GroupStep (E : Type) : GroupState E → GroupState E → Prop where
  /-- `keep_running.is_cancelled()` holds at the top of the loop: the thread
  exits the loop and returns `Ok(())` without running another cycle. -/
  | exitCancelled (s : GroupState E) (i : Nat) (h : i < s.threads.length)
      (hrun : (s.threads.get ⟨i, h⟩).done = none)
      (htok : s.cancelled = true) :
      GroupStep E s
        ⟨s.cancelled,
         s.threads.set i { s.threads.get ⟨i, h⟩ with done := some (.ok ()) }⟩
  /-- token not cancelled; `self.cycle()` returns `Ok`: loop again. -/
  | cycleOk (s : GroupState E) (i : Nat) (h : i < s.threads.length)
      (hrun : (s.threads.get ⟨i, h⟩).done = none)
      (htok : s.cancelled = false)
      (rest : List (Except E Unit))
      (hp : (s.threads.get ⟨i, h⟩).pending = .ok () :: rest) :
      GroupStep E s
        ⟨s.cancelled, s.threads.set i { pending := rest, done := none }⟩
  /-- token not cancelled; `self.cycle()` returns `Err(error)`: the thread
  cancels the token and returns the error as its terminal result. -/
  | cycleErr (s : GroupState E) (i : Nat) (h : i < s.threads.length)
      (hrun : (s.threads.get ⟨i, h⟩).done = none)
      (htok : s.cancelled = false)
      (e : E) (rest : List (Except E Unit))
      (hp : (s.threads.get ⟨i, h⟩).pending = .error e :: rest) :
      GroupStep E s
        ⟨true, s.threads.set i { pending := rest, done := some (.error e) }⟩

/-- Reachability in the interleaved system. -/
def GroupReach (E : Type) : GroupState E → GroupState E → Prop :=
  Relation.ReflTransGen (GroupStep E)

theorem GroupStep.cancelled_monotone {E : Type} {s s' : GroupState E}
    (hstep : GroupStep E s s') (h : s.cancelled = true) : s'.cancelled = true := by
  cases hstep with
  | exitCancelled i hi hrun htok => exact htok
  | cycleOk i hi hrun htok rest hp => rw [htok] at h; cases h
  | cycleErr i hi hrun htok e rest hp => rfl

theorem GroupReach.cancelled_stays {E : Type} {s s' : GroupState E}
    (hreach : GroupReach E s s') (h : s.cancelled = true) : s'.cancelled = true := by
  induction hreach with
  | refl => exact h
  | tail _ hstep ih => exact hstep.cancelled_monotone ih

/-- A step taken from a cancelled state consumes no cycle result: every
thread's pending list is untouched, and the only change is one running thread
returning `Ok(())`. -/
theorem GroupStep.cancelled_no_iteration {E : Type} {s s' : GroupState E}
    (hstep : GroupStep E s s') (h : s.cancelled = true) :
    s'.cancelled = true ∧
    (∀ i (hi : i < s.threads.length) (hi' : i < s'.threads.length),
      (s'.threads.get ⟨i, hi'⟩).pending = (s.threads.get ⟨i, hi⟩).pending ∧
      ((s'.threads.get ⟨i, hi'⟩).done = (s.threads.get ⟨i, hi⟩).done ∨
        (s'.threads.get ⟨i, hi'⟩).done = some (.ok ()))) := by
  cases hstep with
  | exitCancelled j hj hrun htok =>
    refine ⟨htok, ?_⟩
    intro i hi hi'
    by_cases hij : j = i
    · subst hij
      constructor
      · simp [List.getElem_set]
      · right; simp [List.getElem_set]
    · constructor
      · simp [List.getElem_set, hij]
      · left; simp [List.getElem_set, hij]
  | cycleOk j hj hrun htok rest hp => rw [htok] at h; cases h
  | cycleErr j hj hrun htok e rest hp => rw [htok] at h; cases h

/-- Along any execution, a thread's pending cycle results only get consumed
from the front: the remaining list is always a suffix of the original, so no
cycle result is ever executed twice (no retries). -/
theorem GroupReach.no_retry {E : Type} {s s' : GroupState E}
    (hreach : GroupReach E s s') :
    s'.threads.length = s.threads.length ∧
    ∀ i (hi : i < s.threads.length) (hi' : i < s'.threads.length),
      (s'.threads.get ⟨i, hi'⟩).pending.IsSuffix (s.threads.get ⟨i, hi⟩).pending := by
  induction hreach with
  | refl => exact ⟨rfl, fun i hi hi' => List.suffix_refl _⟩
  | @tail m s' _ hstep ih =>
    obtain ⟨hlen, hsuf⟩ := ih
    have step_suffix : s'.threads.length = m.threads.length ∧
        ∀ i (hi : i < m.threads.length) (hi' : i < s'.threads.length),
          (s'.threads.get ⟨i, hi'⟩).pending.IsSuffix (m.threads.get ⟨i, hi⟩).pending := by
      cases hstep with
      | exitCancelled j hj hrun htok =>
        refine ⟨by simp, ?_⟩
        intro i hi hi'
        by_cases hij : j = i
        · subst hij; simp [List.getElem_set]
        · simp [List.getElem_set, hij]
      | cycleOk j hj hrun htok rest hp =>
        refine ⟨by simp, ?_⟩
        intro i hi hi'
        by_cases hij : j = i
        · subst hij
          simp only [List.get_eq_getElem, List.getElem_set, if_pos rfl]
          rw [List.get_eq_getElem] at hp
          rw [hp]
          exact List.suffix_cons _ _
        · simp [List.getElem_set, hij]
      | cycleErr j hj hrun htok e rest hp =>
        refine ⟨by simp, ?_⟩
        intro i hi hi'
        by_cases hij : j = i
        · subst hij
          simp only [List.get_eq_getElem, List.getElem_set, if_pos rfl]
          rw [List.get_eq_getElem] at hp
          rw [hp]
          exact List.suffix_cons _ _
        · simp [List.getElem_set, hij]
    obtain ⟨hlen', hsuf'⟩ := step_suffix
    refine ⟨hlen'.trans hlen, ?_⟩
    intro i hi hi'
    have him : i < m.threads.length := hlen' ▸ hi'
    exact (hsuf' i him hi').trans (hsuf i hi him)

/-- C2: (1) whenever a running thread's next `cycle()` result is an error and
the token is not yet cancelled, the step that schedules that thread cancels
the shared token and makes the thread terminate with the originating error;
(2) the token, once cancelled, stays cancelled, and any thread scheduled
afterwards starts no further iteration and exits with `Ok(())`;
(3) along every execution no cycle result is ever consumed twice. -/
theorem generated_start_loop_spec {E : Type} (s s' : GroupState E)
    (hstep : GroupStep E s s') :
    -- (1): an error step cancels and surfaces the error
    (∀ i (hi : i < s.threads.length) (e : E) (rest : List (Except E Unit)),
      (s.threads.get ⟨i, hi⟩).done = none →
      s.cancelled = false →
      (s.threads.get ⟨i, hi⟩).pending = .error e :: rest →
      s' = ⟨true, s.threads.set i { pending := rest, done := some (.error e) }⟩ →
      s'.cancelled = true ∧
      ∀ hi' : i < s'.threads.length,
        (s'.threads.get ⟨i, hi'⟩).done = some (.error e)) ∧
    -- (2): once cancelled, monotone + no further iterations
    (s.cancelled = true →
      s'.cancelled = true ∧
      (∀ i (hi : i < s.threads.length) (hi' : i < s'.threads.length),
        (s'.threads.get ⟨i, hi'⟩).pending = (s.threads.get ⟨i, hi⟩).pending ∧
        ((s'.threads.get ⟨i, hi'⟩).done = (s.threads.get ⟨i, hi⟩).done ∨
          (s'.threads.get ⟨i, hi'⟩).done = some (.ok ())))) ∧
    -- (3): no retry along any execution extending this step
    (∀ s'', GroupReach E s' s'' →
      ∀ i (hi : i < s.threads.length) (hi'' : i < s''.threads.length),
        (s''.threads.get ⟨i, hi''⟩).pending.IsSuffix
          (s.threads.get ⟨i, hi⟩).pending) := by
  refine ⟨?_, ?_, ?_⟩
  · intro i hi e rest _ _ _ hs'
    subst hs'
    refine ⟨rfl, ?_⟩
    intro hi'
    simp [List.getElem_set]
  · intro h
    exact hstep.cancelled_no_iteration h
  · intro s'' hreach i hi hi''
    have hchain : GroupReach E s s'' :=
      Relation.ReflTransGen.trans (Relation.ReflTransGen.single hstep) hreach
    obtain ⟨_, hsuf⟩ := hchain.no_retry
    exact hsuf i hi hi''

/-- Concrete two-thread instance of `generated_start_loop_spec`: thread 0's
first cycle fails with error `7`, and the step cancels the token and surfaces
the error as thread 0's terminal result. -/
theorem generated_start_loop_spec_witness :
    GroupStep Nat
      ⟨false, [⟨[.error 7], none⟩, ⟨[.ok ()], none⟩]⟩
      ⟨true, [⟨[], some (.error 7)⟩, ⟨[.ok ()], none⟩]⟩ ∧
    (GroupState.cancelled (E := Nat) ⟨true, [⟨[], some (.error 7)⟩, ⟨[.ok ()], none⟩]⟩ = true ∧
      ((GroupState.threads (E := Nat)
          ⟨true, [⟨[], some (.error 7)⟩, ⟨[.ok ()], none⟩]⟩).get
            ⟨0, by norm_num⟩).done = some (.error 7)) := by
  have hstep : GroupStep Nat
      ⟨false, [⟨[.error 7], none⟩, ⟨[.ok ()], none⟩]⟩
      ⟨true, [⟨[], some (.error 7)⟩, ⟨[.ok ()], none⟩]⟩ :=
    GroupStep.cycleErr
      ⟨false, [⟨[.error 7], none⟩, ⟨[.ok ()], none⟩]⟩ 0 (by norm_num) rfl rfl 7 [] rfl
  refine ⟨hstep, ?_⟩
  have h1 := (generated_start_loop_spec _ _ hstep).1 0 (by norm_num) 7 [] rfl rfl rfl rfl
  exact ⟨h1.1, h1.2 (by norm_num)⟩

/-! ## The generated cycle method

`crates/code_generation/src/cyclers.rs` emits, for every cycler of the
topology, a `Cycler` struct with a `cycle` method whose body depends on the
cycler kind (`RealTime`/`Perception`) and the execution mode (`Run`/`Replay`;
`Execution::None` never reaches node-execution generation, see the panic in
`generate_node_execution`).  The definitions below embed the runtime
semantics of that generated method, parameterised over the topology:

* `CField` mirrors `source_analyzer::contexts::Field` as consumed by the
  generator (cycle-context field vocabulary);
* `CNode` is one node: its cycle-context field list, its declared main
  outputs, and its `cycle` behaviour as an abstract function from its node
  state and resolved context values to new state, outputs and new values for
  its mutable `CyclerState` fields;
* database main-outputs stores are `String → Option Val` (a field of
  `Option` type stores its `Option` value; `RequiredInput` presence is
  `isSome` of the stored value, exactly as the generated
  `accessor.is_some()` conditions);
* recording frames are `List (FrameEntry Val)`: `bincode` serialization of a
  value (an external crate) is modelled as storing the value itself, with a
  `serFail` oracle for serialization failures, and deserialization as
  reading the next entry, failing on exhaustion or on a type/shape mismatch;
* the framework structures that live outside the generated code
  (`framework::Writer/Reader/Producer/Consumer`, `HistoricDatabases`,
  `PerceptionDatabases`) appear as environment data (`RunWorld`,
  `ReplayWorld`) plus trace events (`CEvent`) recording the calls the
  generated code makes into them and the arguments it passes.
-/

/-- Execution mode (`crate::Execution`). -/
inductive ExecutionMode where
  | noExecution
  | run
  | replay
deriving DecidableEq

/-- `source_analyzer::cyclers::CyclerKind`. -/
inductive CyclerKind where
  | Perception
  | RealTime
deriving DecidableEq

/-- Cycle-context field vocabulary (`source_analyzer::contexts::Field`),
with paths flattened to strings. `cyclerInstance = none` on `input` /
`requiredInput` means the field reads the cycler's own database. -/
inductive CField where
  | additionalOutput (path : String)
  | cyclerState (path : String)
  | hardwareInterface
  | historicInput (path : String)
  | input (cyclerInstance : Option String) (path : String)
  | parameter (path : String)
  | perceptionInput (cyclerInstance : String) (path : String)
  | requiredInput (cyclerInstance : Option String) (path : String)
deriving DecidableEq

/-- A context value handed to a node's `cycle` function. -/
inductive CtxVal (Val : Type) where
  | value (v : Val)
  | optional (v : Option Val)
  | timeMap (m : List (Nat × Option Val))
  | perception (persistent temporary : List (Nat × List (Option Val)))
  | additional (isSubscribed : Bool)
  | hardware
deriving DecidableEq

/-- One entry of a recording frame (one `bincode::serialize_into` call). -/
inductive FrameEntry (Val : Type) where
  | output (v : Option Val)
  | nodeState (s : Val)
  | cyclerStateVal (v : Val)
  | historicMap (m : List (Nat × Option Val))
  | inputVal (v : Option Val)
  | requiredVal (v : Val)
  | perceptionMaps (persistent temporary : List (Nat × List (Option Val)))
deriving DecidableEq

/-- Calls the generated cycle method makes into framework structures and the
hardware interface, in program order. -/
inductive CEvent (Val : Type) where
  | paramsRead (idx : Nat)
  | subscribedRead (idx : Nat)
  | getNow
  | shouldRecordCheck
  | announce
  | readerNext (inst : String)
  | consume (inst : String) (now : Nat)
  | perceptionUpdate (now : Nat)
  | historicUpdate (now : Nat) (horizon : Option Nat) (snapshot : String → Option Val)
  | finalize (snapshot : String → Option Val)
  | nodeCycleStarted (name : String)
  | trySendFrame (entries : List (FrameEntry Val))
  | notifyOne

/-- One node of a cycler (`source_analyzer::node::Node` as the generator
uses it): declared cycle-context fields, declared main outputs, and the
node's `cycle` behaviour.  `run state ctx` returns the node's new internal
state, its produced main outputs by field name, and the new values of its
mutable `CyclerState` context fields by path. -/
structure CNode (Val : Type) where
  name : String
  cycleContext : List CField
  mainOutputs : List String
  run : Val → List (CtxVal Val) →
    Except String (Val × (String → Option Val) × (String → Val))

/-- One cycler of the topology: its kind and its ordered setup/cycle nodes. -/
structure CCycler (Val : Type) where
  kind : CyclerKind
  setupNodes : List (CNode Val)
  cycleNodes : List (CNode Val)

/-- Instance names of the whole topology, by kind
(`Cyclers::instances_with`). -/
structure TopologyInstances where
  realtime : List String
  perception : List String

/-- Cross-thread / cross-iteration state owned by one cycler. `buf_a` is the
buffer the next `own_writer.next()` call hands out, `buf_b` the one after
that: a published database becomes the write slot again two publishes later.
Modelled from the spec: `framework::Writer` (not under the analysed sources)
per §4.1, "`begin_write()` returns a mutable handle to the next buffer
(initialized from the writer's own buffer from two versions ago)". -/
structure CyclerMachine (Val : Type) where
  cycler_state : String → Val
  node_states : String → Val
  buf_a : String → Option Val
  buf_b : String → Option Val
  enable_recording : Bool

/-- Per-iteration environment of a Run-mode cycle: reader streams, the
hardware clock, peer databases locked this iteration, the contents of the
cycler's framework structures, and the recording sink. -/
structure RunWorld (Val : Type) where
  now : Nat
  shouldRecord : Bool
  paramsAt : Nat → String → Val
  subscribedAt : Nat → List String
  shouldBeFilled : String → String → Bool
  peerDb : String → String → Option Val
  historic : List (Nat × (String → Option Val))
  percPersistent : List (Nat × (String → List (String → Option Val)))
  percTemporary : List (Nat × (String → List (String → Option Val)))
  firstTemporaryTimestamp : Option Nat
  sinkFull : Bool
  serFail : FrameEntry Val → Bool

/-- Per-call environment of a Replay-mode cycle: the replay harness's live
readers (parameters, subscribed outputs, peer databases used by the
required-input conditions) and the cycler's framework structures. -/
structure ReplayWorld (Val : Type) where
  paramsAt : Nat → String → Val
  subscribedAt : Nat → List String
  shouldBeFilled : String → String → Bool
  peerDb : String → String → Option Val
  firstTemporaryTimestamp : Option Nat

section CyclerModel

variable {Val : Type} [Inhabited Val]

/-- `generate_required_input_condition` (cyclers.rs:984): the conjunction of
`accessor.is_some()` over the node's `RequiredInput` fields (with `true`
chained at the end), reading peer databases for fields with a cycler
instance and the own database otherwise. -/
def requiredInputsSome (peer : String → String → Option Val)
    (db : String → Option Val) (node : CNode Val) : Bool :=
  node.cycleContext.all fun f =>
    match f with
    | .requiredInput none path => (db path).isSome
    | .requiredInput (some inst) path => (peer inst path).isSome
    | _ => true

/-- `generate_context_initializers` for `Execution::Run`
(cyclers.rs:1023): how each cycle-context field of a node is resolved
against the live structures. -/
def resolveRunField (w : RunWorld Val) (params : String → Val)
    (subscribed : List String) (cs : String → Val)
    (db : String → Option Val) : CField → CtxVal Val
  | .additionalOutput path =>
      .additional (subscribed.any fun s =>
        w.shouldBeFilled s ("additional_outputs." ++ path))
  | .cyclerState path => .value (cs path)
  | .hardwareInterface => .hardware
  | .historicInput path =>
      .timeMap ((w.now, db path) :: w.historic.map fun td => (td.1, td.2 path))
  | .input none path => .optional (db path)
  | .input (some inst) path => .optional (w.peerDb inst path)
  | .parameter path => .value (params path)
  | .perceptionInput inst path =>
      .perception
        (w.percPersistent.map fun td => (td.1, (td.2 inst).map fun d => d path))
        (w.percTemporary.map fun td => (td.1, (td.2 inst).map fun d => d path))
  | .requiredInput none path => .value ((db path).getD default)
  | .requiredInput (some inst) path => .value ((w.peerDb inst path).getD default)

/-- Mutable per-iteration state threaded through the Run-mode cycle body. -/
structure RunAcc (Val : Type) where
  cs : String → Val
  states : String → Val
  db : String → Option Val
  frame : List (FrameEntry Val)
  trace : List (CEvent Val)

/-- `generate_write_main_outputs_from_node` (cyclers.rs:879) in Run mode:
if all required inputs are present, invoke the node's cycle function and
write each returned main-output value to the database
(`generate_database_updates`); otherwise set each declared main-output field
to its default (`generate_database_updates_from_defaults`).  Returns the
updated iteration state and whether the node's cycle function was invoked. -/
def writeMainOutputsFromNode (w : RunWorld Val) (params : String → Val)
    (subscribed : List String) (dflt : String → Option Val)
    (acc : RunAcc Val) (node : CNode Val) :
    Except String (RunAcc Val × Bool) :=
  if requiredInputsSome w.peerDb acc.db node then
    match node.run (acc.states node.name)
        (node.cycleContext.map (resolveRunField w params subscribed acc.cs acc.db)) with
    | .error e =>
        .error ("failed to execute cycle of `" ++ node.name ++ "`: " ++ e)
    | .ok (st, outs, cs) =>
        .ok ({ acc with
          cs := fun p => if CField.cyclerState p ∈ node.cycleContext then cs p else acc.cs p,
          states := fun n => if n = node.name then st else acc.states n,
          db := fun p => if p ∈ node.mainOutputs then outs p else acc.db p,
          trace := acc.trace ++ [.nodeCycleStarted node.name] }, true)
  else
    .ok ({ acc with
      db := fun p => if p ∈ node.mainOutputs then dflt p else acc.db p }, false)

/-- One `bincode::serialize_into(&mut recording_frame, v)?` call, guarded by
`if enable_recording`. -/
def serializeEntry (serFail : FrameEntry Val → Bool) (enableRec : Bool)
    (frame : List (FrameEntry Val)) (e : FrameEntry Val) (msg : String) :
    Except String (List (FrameEntry Val)) :=
  if enableRec then
    if serFail e then .error msg else .ok (frame ++ [e])
  else
    .ok frame

/-- `generate_record_main_outputs` (cyclers.rs:915): after a setup node has
executed, append each of its main-output database fields to the frame. -/
def recordMainOutputs (serFail : FrameEntry Val → Bool) (enableRec : Bool)
    (db : String → Option Val) :
    List String → List (FrameEntry Val) → Except String (List (FrameEntry Val))
  | [], frame => .ok frame
  | name :: rest, frame =>
    match serializeEntry serFail enableRec frame (.output (db name))
        ("failed to record " ++ name) with
    | .error e => .error e
    | .ok frame => recordMainOutputs serFail enableRec db rest frame

/-- `generate_record_node_state` (cyclers.rs:933): before a cycle node
executes, append the node's persisted state to the frame. -/
def recordNodeState (serFail : FrameEntry Val → Bool) (enableRec : Bool)
    (states : String → Val) (name : String) (frame : List (FrameEntry Val)) :
    Except String (List (FrameEntry Val)) :=
  serializeEntry serFail enableRec frame (.nodeState (states name))
    ("failed to record `" ++ name ++ "`")

/-- `get_cross_inputs` membership test (cyclers.rs:556): the field kinds
whose values cross a synchronization boundary. -/
def isCrossInput : CField → Bool
  | .cyclerState _ => true
  | .historicInput _ => true
  | .input (some _) _ => true
  | .perceptionInput _ _ => true
  | .requiredInput (some _) _ => true
  | _ => false

/-- `get_cross_inputs` (cyclers.rs:556): the deduplicated collection of
cross-boundary cycle-context fields of all setup and cycle nodes.  The
source collects into a `BTreeSet` (deduplicated, iterated in a fixed
order); recording and extraction both iterate this same function, which is
all that matters for the frame layout, so the fixed order is modelled as
first-occurrence order. -/
def get_cross_inputs (cy : CCycler Val) : List CField :=
  ((cy.setupNodes ++ cy.cycleNodes).flatMap
    fun n => n.cycleContext.filter isCrossInput).dedup

/-- The value `generate_cross_inputs_recording` (cyclers.rs:586) serializes
for one cross-input field, evaluated against the live structures at the
start of the cycle-node phase.  A cross-cycler `RequiredInput` is recorded
through `.unwrap()`: if it is absent the generated code panics, modelled as
an `Except.error`. -/
def crossRecordedEntry (w : RunWorld Val) (cs : String → Val)
    (db : String → Option Val) : CField → Except String (FrameEntry Val)
  | .cyclerState path => .ok (.cyclerStateVal (cs path))
  | .historicInput path =>
      .ok (.historicMap ((w.now, db path) :: w.historic.map fun td => (td.1, td.2 path)))
  | .input (some inst) path => .ok (.inputVal (w.peerDb inst path))
  | .perceptionInput inst path =>
      .ok (.perceptionMaps
        (w.percPersistent.map fun td => (td.1, (td.2 inst).map fun d => d path))
        (w.percTemporary.map fun td => (td.1, (td.2 inst).map fun d => d path)))
  | .requiredInput (some inst) path =>
      match w.peerDb inst path with
      | some v => .ok (.requiredVal v)
      | none => .error "panicked: called `Option::unwrap()` on a `None` value"
  | _ => .error "unexpected field"

/-- `generate_cross_inputs_recording` (cyclers.rs:586): under
`if enable_recording`, serialize every cross-input value into the frame. -/
def recordCrossInputs (w : RunWorld Val) (enableRec : Bool)
    (cs : String → Val) (db : String → Option Val) :
    List CField → List (FrameEntry Val) → Except String (List (FrameEntry Val))
  | [], frame => .ok frame
  | f :: rest, frame =>
      if enableRec then
        match crossRecordedEntry w cs db f with
        | .error e => .error e
        | .ok entry =>
          match serializeEntry w.serFail true frame entry "failed to record cross input" with
          | .error e => .error e
          | .ok frame => recordCrossInputs w enableRec cs db rest frame
      else
        .ok frame

/-- Setup-node phase in Run mode (`generate_node_execution`, case
`(Setup, Run)`): per node, the gated execution block followed by
`record_main_outputs`. -/
def runSetupNodes (w : RunWorld Val) (params : String → Val)
    (subscribed : List String) (dflt : String → Option Val) (enableRec : Bool) :
    List (CNode Val) → RunAcc Val → Except String (RunAcc Val)
  | [], acc => .ok acc
  | node :: rest, acc =>
    match writeMainOutputsFromNode w params subscribed dflt acc node with
    | .error e => .error e
    | .ok (acc, _) =>
      match recordMainOutputs w.serFail enableRec acc.db node.mainOutputs acc.frame with
      | .error e => .error e
      | .ok frame =>
        runSetupNodes w params subscribed dflt enableRec rest { acc with frame := frame }

/-- Cycle-node phase in Run mode (`generate_node_execution`, case
`(Cycle, Run)`): per node, `record_node_state` followed by the gated
execution block. -/
def runCycleNodes (w : RunWorld Val) (params : String → Val)
    (subscribed : List String) (dflt : String → Option Val) (enableRec : Bool) :
    List (CNode Val) → RunAcc Val → Except String (RunAcc Val)
  | [], acc => .ok acc
  | node :: rest, acc =>
    match recordNodeState w.serFail enableRec acc.states node.name acc.frame with
    | .error e => .error e
    | .ok frame =>
      match writeMainOutputsFromNode w params subscribed dflt { acc with frame := frame } node with
      | .error e => .error e
      | .ok (acc, _) => runCycleNodes w params subscribed dflt enableRec rest acc

/-- The framework hand-off calls after the setup block (`post_setup`,
cyclers.rs:448): Perception cyclers call `announce()` on their producer;
RealTime cyclers drain every Perception instance's consumer and feed the
batches to `perception_databases.update(now, ...)`. -/
def handoffEvents (kind : CyclerKind) (perceptionInsts : List String) (now : Nat) :
    List (CEvent Val) :=
  match kind with
  | .Perception => [.announce]
  | .RealTime =>
      (perceptionInsts.map fun i => CEvent.consume i now) ++ [.perceptionUpdate now]

/-- The reader locking in the cycle block (`lock_readers`, cyclers.rs:464):
Perception cyclers lock the Reader of every RealTime instance; RealTime
cyclers lock none. -/
def readerLockEvents (kind : CyclerKind) (realtimeInsts : List String) :
    List (CEvent Val) :=
  match kind with
  | .Perception => realtimeInsts.map fun i => CEvent.readerNext i
  | .RealTime => []

/-- The post-processing calls after the last cycle node
(`after_remaining_nodes`, cyclers.rs:477): Perception cyclers call
`finalize` with a clone of their main outputs; RealTime cyclers call
`historic_databases.update` with the current time, the earliest temporary
timestamp of their perception databases as retention horizon, and a
reference to their main outputs. -/
def postProcessingEvents (kind : CyclerKind) (now : Nat) (horizon : Option Nat)
    (db : String → Option Val) : List (CEvent Val) :=
  match kind with
  | .Perception => [.finalize db]
  | .RealTime => [.historicUpdate now horizon db]

/-- The Run-mode `cycle` method generated by `generate_cycle_method`
(cyclers.rs:409) for one cycler: acquire the write buffer, compute
`enable_recording`, run the setup block, the cross-cycler hand-off
(`announce` / consumer drain into `perception_databases.update`), the cycle
block (reader locking, cross-input recording, cycle nodes), the
post-processing (`finalize` / `historic_databases.update`), the recording
`try_send`, the buffer publish and `notify_one`.  Returns the new cycler
state, the published database, the recording frame and the event trace. -/
def runCycle (cy : CCycler Val) (inst : TopologyInstances)
    (dflt : String → Option Val) (m : CyclerMachine Val) (w : RunWorld Val) :
    Except String
      (CyclerMachine Val × (String → Option Val) × List (FrameEntry Val) × List (CEvent Val)) :=
  let db0 := m.buf_a
  let enableRec := m.enable_recording && w.shouldRecord
  let tPre : List (CEvent Val) := [.shouldRecordCheck]
  let params0 := w.paramsAt 0
  let subscribed0 := w.subscribedAt 0
  let acc0 : RunAcc Val :=
    { cs := m.cycler_state, states := m.node_states, db := db0, frame := [],
      trace := tPre ++ [.subscribedRead 0, .paramsRead 0] }
  match runSetupNodes w params0 subscribed0 dflt enableRec cy.setupNodes acc0 with
  | .error e => .error e
  | .ok acc1 =>
    let tKind : List (CEvent Val) := handoffEvents cy.kind inst.perception w.now
    let params1 := w.paramsAt 1
    let subscribed1 := w.subscribedAt 1
    let tReaders : List (CEvent Val) := readerLockEvents cy.kind inst.realtime
    match recordCrossInputs w enableRec acc1.cs acc1.db (get_cross_inputs cy) acc1.frame with
    | .error e => .error e
    | .ok frame1 =>
      let trace2 : List (CEvent Val) :=
        acc1.trace ++ [CEvent.getNow] ++ tKind
          ++ [.subscribedRead 1, .paramsRead 1] ++ tReaders
      let acc2 : RunAcc Val := { acc1 with frame := frame1, trace := trace2 }
      match runCycleNodes w params1 subscribed1 dflt enableRec cy.cycleNodes acc2 with
      | .error e => .error e
      | .ok acc3 =>
        let tAfter : List (CEvent Val) :=
          postProcessingEvents cy.kind w.now w.firstTemporaryTimestamp acc3.db
        let result := fun (tSend : List (CEvent Val)) =>
          ({ m with
              cycler_state := acc3.cs,
              node_states := acc3.states,
              buf_a := m.buf_b,
              buf_b := acc3.db },
            acc3.db, acc3.frame,
            acc3.trace ++ tAfter ++ tSend ++ [CEvent.notifyOne])
        if enableRec then
          if w.sinkFull then .error "failed to send recording frame"
          else .ok (result [.trySendFrame acc3.frame])
        else .ok (result [])

/-- `generate_implementation` (cyclers.rs:200): the generated `impl` block
contains a `start` method (which spawns the thread loop) only for
`Execution::None` and `Execution::Run`; in `Execution::Replay` the `cycle`
method is public and driven externally, one call per stored frame. -/
def hasStartMethod : ExecutionMode → Bool
  | .noExecution => true
  | .run => true
  | .replay => false

/-- The extraction variables bound by `generate_cross_inputs_extraction`
(cyclers.rs:732) in Replay mode.  The `CyclerState` variables are `let mut`
and subsequently mutated by the replayed nodes (`csVars`); all other
extraction variables are immutable (`fixedVars`, keyed by their field). -/
structure ExtractEnv (Val : Type) where
  csVars : String → Val
  fixedVars : CField → FrameEntry Val

/-- `generate_cross_inputs_extraction` (cyclers.rs:732): deserialize one
value per cross-input field, in the same fixed order used for recording,
failing on a missing or mismatched frame entry. -/
def extractCrossInputs :
    List CField → List (FrameEntry Val) → ExtractEnv Val →
    Except String (ExtractEnv Val × List (FrameEntry Val))
  | [], frame, env => .ok (env, frame)
  | f :: rest, frame, env =>
    match f, frame with
    | .cyclerState path, .cyclerStateVal v :: fr =>
        extractCrossInputs rest fr
          { env with csVars := fun p => if p = path then v else env.csVars p }
    | .historicInput path, .historicMap m :: fr =>
        extractCrossInputs rest fr
          { env with fixedVars := fun g =>
              if g = CField.historicInput path then .historicMap m else env.fixedVars g }
    | .input (some inst) path, .inputVal v :: fr =>
        extractCrossInputs rest fr
          { env with fixedVars := fun g =>
              if g = CField.input (some inst) path then .inputVal v else env.fixedVars g }
    | .perceptionInput inst path, .perceptionMaps pm tm :: fr =>
        extractCrossInputs rest fr
          { env with fixedVars := fun g =>
              if g = CField.perceptionInput inst path then .perceptionMaps pm tm
              else env.fixedVars g }
    | .requiredInput (some inst) path, .requiredVal v :: fr =>
        extractCrossInputs rest fr
          { env with fixedVars := fun g =>
              if g = CField.requiredInput (some inst) path then .requiredVal v
              else env.fixedVars g }
    | _, _ => .error "failed to extract cross input"

/-- `generate_context_initializers` for `Execution::Replay`
(cyclers.rs:1023): context fields resolved from the extraction variables,
from the own database, or live (parameters, subscribed outputs, hardware
interface). The catch-all arms of the inner matches are unreachable when
the environment was produced by `extractCrossInputs` on a frame recorded
for the same field list. -/
def resolveReplayField (rw : ReplayWorld Val) (params : String → Val)
    (subscribed : List String) (env : ExtractEnv Val)
    (db : String → Option Val) : CField → CtxVal Val
  | .additionalOutput path =>
      .additional (subscribed.any fun s =>
        rw.shouldBeFilled s ("additional_outputs." ++ path))
  | .cyclerState path => .value (env.csVars path)
  | .hardwareInterface => .hardware
  | .historicInput path =>
      match env.fixedVars (.historicInput path) with
      | .historicMap m => .timeMap m
      | _ => .timeMap []
  | .input none path => .optional (db path)
  | .input (some inst) path =>
      match env.fixedVars (.input (some inst) path) with
      | .inputVal v => .optional v
      | _ => .optional none
  | .parameter path => .value (params path)
  | .perceptionInput inst path =>
      match env.fixedVars (.perceptionInput inst path) with
      | .perceptionMaps pm tm => .perception pm tm
      | _ => .perception [] []
  | .requiredInput none path => .value ((db path).getD default)
  | .requiredInput (some inst) path =>
      match env.fixedVars (.requiredInput (some inst) path) with
      | .requiredVal v => .value v
      | _ => .value default

/-- Mutable per-call state threaded through the Replay-mode cycle body. -/
structure ReplayAcc (Val : Type) where
  env : ExtractEnv Val
  states : String → Val
  db : String → Option Val
  trace : List (CEvent Val)

/-- `generate_write_main_outputs_from_node` in Replay mode: the same gated
execution block, with contexts resolved by `resolveReplayField`; the
required-input conditions still read the live own database and the live
peer readers. -/
def writeMainOutputsFromNodeReplay (rw : ReplayWorld Val)
    (params : String → Val) (subscribed : List String)
    (dflt : String → Option Val) (acc : ReplayAcc Val) (node : CNode Val) :
    Except String (ReplayAcc Val × Bool) :=
  if requiredInputsSome rw.peerDb acc.db node then
    match node.run (acc.states node.name)
        (node.cycleContext.map (resolveReplayField rw params subscribed acc.env acc.db)) with
    | .error e =>
        .error ("failed to execute cycle of `" ++ node.name ++ "`: " ++ e)
    | .ok (st, outs, cs) =>
        .ok ({ acc with
          env := { acc.env with csVars := fun p =>
            if CField.cyclerState p ∈ node.cycleContext then cs p else acc.env.csVars p },
          states := fun n => if n = node.name then st else acc.states n,
          db := fun p => if p ∈ node.mainOutputs then outs p else acc.db p,
          trace := acc.trace ++ [.nodeCycleStarted node.name] }, true)
  else
    .ok ({ acc with
      db := fun p => if p ∈ node.mainOutputs then dflt p else acc.db p }, false)

/-- `generate_write_main_outputs_from_frame` (cyclers.rs:943): write each of
the node's main-output fields directly from the next frame entries, without
running the node. -/
def writeMainOutputsFromFrame :
    List String → (String → Option Val) → List (FrameEntry Val) →
    Except String ((String → Option Val) × List (FrameEntry Val))
  | [], db, frame => .ok (db, frame)
  | name :: rest, db, frame =>
    match frame with
    | .output v :: fr =>
        writeMainOutputsFromFrame rest (fun p => if p = name then v else db p) fr
    | _ => .error ("failed to extract " ++ name)

/-- Setup-node phase in Replay mode (`generate_node_execution`, case
`(Setup, Replay)`): only `write_main_outputs_from_frame` per node. -/
def replaySetupNodes :
    List (CNode Val) → (String → Option Val) → List (FrameEntry Val) →
    Except String ((String → Option Val) × List (FrameEntry Val))
  | [], db, frame => .ok (db, frame)
  | node :: rest, db, frame =>
    match writeMainOutputsFromFrame node.mainOutputs db frame with
    | .error e => .error e
    | .ok (db, frame) => replaySetupNodes rest db frame

/-- `generate_restore_node_state` (cyclers.rs:959): deserialize the node's
persisted state from the frame in place. -/
def restoreNodeState (states : String → Val) (name : String) :
    List (FrameEntry Val) →
    Except String ((String → Val) × List (FrameEntry Val))
  | .nodeState s :: fr => .ok (fun n => if n = name then s else states n, fr)
  | _ => .error ("failed to extract `" ++ name ++ "`")

/-- Cycle-node phase in Replay mode (`generate_node_execution`, case
`(Cycle, Replay)`): per node, `restore_node_state` followed by the gated
execution block. -/
def replayCycleNodes (rw : ReplayWorld Val) (params : String → Val)
    (subscribed : List String) (dflt : String → Option Val) :
    List (CNode Val) → ReplayAcc Val → List (FrameEntry Val) →
    Except String (ReplayAcc Val × List (FrameEntry Val))
  | [], acc, frame => .ok (acc, frame)
  | node :: rest, acc, frame =>
    match restoreNodeState acc.states node.name frame with
    | .error e => .error e
    | .ok (states, frame) =>
      match writeMainOutputsFromNodeReplay rw params subscribed dflt
          { acc with states := states } node with
      | .error e => .error e
      | .ok (acc, _) => replayCycleNodes rw params subscribed dflt rest acc frame

/-- The Replay-mode `cycle` method generated by `generate_cycle_method`
(cyclers.rs:409): takes `now` and one stored frame as arguments, restores
setup-node outputs and node states from the frame, re-runs the cycle nodes
against contexts reconstructed from the frame, and performs the same
framework hand-off calls as Run mode — but makes no hardware call, computes
no recording, and leaves `self.cycler_state` untouched. -/
def replayCycle (cy : CCycler Val) (inst : TopologyInstances)
    (dflt : String → Option Val) (m : CyclerMachine Val) (rw : ReplayWorld Val)
    (now : Nat) (frame : List (FrameEntry Val)) :
    Except String (CyclerMachine Val × (String → Option Val) × List (CEvent Val)) :=
  let db0 := m.buf_a
  let _params0 := rw.paramsAt 0
  let _subscribed0 := rw.subscribedAt 0
  match replaySetupNodes cy.setupNodes db0 frame with
  | .error e => .error e
  | .ok setupRes =>
    let db1 := setupRes.1
    let frame1 := setupRes.2
    let tKind : List (CEvent Val) := handoffEvents cy.kind inst.perception now
    let params1 := rw.paramsAt 1
    let subscribed1 := rw.subscribedAt 1
    let tReaders : List (CEvent Val) := readerLockEvents cy.kind inst.realtime
    let env0 : ExtractEnv Val :=
      { csVars := fun _p => default, fixedVars := fun _g => FrameEntry.nodeState default }
    match extractCrossInputs (get_cross_inputs cy) frame1 env0 with
    | .error e => .error e
    | .ok extractRes =>
      let env1 := extractRes.1
      let frame2 := extractRes.2
      let acc0 : ReplayAcc Val :=
        { env := env1, states := m.node_states, db := db1,
          trace := [.subscribedRead 0, .paramsRead 0] ++ tKind
            ++ [.subscribedRead 1, .paramsRead 1] ++ tReaders }
      match replayCycleNodes rw params1 subscribed1 dflt cy.cycleNodes acc0 frame2 with
      | .error e => .error e
      | .ok cycleRes =>
        let acc1 := cycleRes.1
        let tAfter : List (CEvent Val) :=
          postProcessingEvents cy.kind now rw.firstTemporaryTimestamp acc1.db
        .ok ({ m with
            node_states := acc1.states,
            buf_a := m.buf_b,
            buf_b := acc1.db },
          acc1.db, acc1.trace ++ tAfter ++ [CEvent.notifyOne])

/-! ### Event classifiers -/

def isParamsReadEvent : CEvent Val → Bool
  | .paramsRead _ => true
  | _ => false

def isReaderNextEvent : CEvent Val → Bool
  | .readerNext _ => true
  | _ => false

def isConsumeEvent : CEvent Val → Bool
  | .consume _ _ => true
  | _ => false

def isAnnounceEvent : CEvent Val → Bool
  | .announce => true
  | _ => false

def isPerceptionUpdateEvent : CEvent Val → Bool
  | .perceptionUpdate _ => true
  | _ => false

def isHistoricUpdateEvent : CEvent Val → Bool
  | .historicUpdate _ _ _ => true
  | _ => false

def isFinalizeEvent : CEvent Val → Bool
  | .finalize _ => true
  | _ => false

def isHardwareEvent : CEvent Val → Bool
  | .getNow => true
  | .shouldRecordCheck => true
  | _ => false

def isNodeCycleEvent : CEvent Val → Bool
  | .nodeCycleStarted _ => true
  | _ => false

def isTrySendEvent : CEvent Val → Bool
  | .trySendFrame _ => true
  | _ => false

/-! ### Shape lemmas for the node-execution phases -/

theorem writeMainOutputsFromNode_trace {w : RunWorld Val} {params : String → Val}
    {subscribed : List String} {dflt : String → Option Val}
    {acc acc2 : RunAcc Val} {node : CNode Val} {inv : Bool}
    (h : writeMainOutputsFromNode w params subscribed dflt acc node = .ok (acc2, inv)) :
    (acc2.trace = acc.trace ∨ acc2.trace = acc.trace ++ [.nodeCycleStarted node.name]) ∧
    acc2.frame = acc.frame := by
  unfold writeMainOutputsFromNode at h
  by_cases hg : requiredInputsSome w.peerDb acc.db node = true
  · rw [if_pos hg] at h
    cases hrun : node.run (acc.states node.name)
        (node.cycleContext.map (resolveRunField w params subscribed acc.cs acc.db)) with
    | error e => rw [hrun] at h; cases h
    | ok res =>
      rw [hrun] at h
      obtain ⟨st, outs, cs⟩ := res
      cases h
      exact ⟨Or.inr rfl, rfl⟩
  · rw [if_neg hg] at h
    cases h
    exact ⟨Or.inl rfl, rfl⟩

theorem bool_eq_tf {b : Bool} (ht : b = true) (hf : b = false) : False := by
  rw [ht] at hf
  cases hf

theorem serializeEntry_ok {serFail : FrameEntry Val → Bool} {enableRec : Bool}
    {frame frame2 : List (FrameEntry Val)} {e : FrameEntry Val} {msg : String}
    (h : serializeEntry serFail enableRec frame e msg = .ok frame2) :
    (enableRec = true → frame2 = frame ++ [e] ∧ serFail e = false) ∧
    (enableRec = false → frame2 = frame) := by
  unfold serializeEntry at h
  by_cases he : enableRec = true
  · rw [he] at h
    simp only [if_true] at h
    by_cases hs : serFail e = true
    · rw [if_pos hs] at h; cases h
    · rw [if_neg hs] at h
      cases h
      exact ⟨fun _ => ⟨rfl, (Bool.not_eq_true _) ▸ hs⟩,
        fun hc => (bool_eq_tf he hc).elim⟩
  · have he' : enableRec = false := (Bool.not_eq_true _) ▸ he
    rw [he'] at h
    simp only [Bool.false_eq_true, if_false] at h
    cases h
    exact ⟨fun hc => (bool_eq_tf hc he').elim, fun _ => rfl⟩

theorem recordMainOutputs_shape {serFail : FrameEntry Val → Bool} {enableRec : Bool}
    {db : String → Option Val} :
    ∀ {names : List String} {frame frame2 : List (FrameEntry Val)},
      recordMainOutputs serFail enableRec db names frame = .ok frame2 →
      ∃ Δ, frame2 = frame ++ Δ ∧
        (enableRec = true → Δ = names.map fun nm => FrameEntry.output (db nm)) ∧
        (enableRec = false → Δ = []) ∧
        (∀ e ∈ Δ, serFail e = false) := by
  intro names
  induction names with
  | nil =>
    intro frame frame2 h
    cases h
    exact ⟨[], by simp, fun _ => rfl, fun _ => rfl, by simp⟩
  | cons nm rest ih =>
    intro frame frame2 h
    unfold recordMainOutputs at h
    split at h
    · cases h
    · next frame1 heq =>
      obtain ⟨hon, hoff⟩ := serializeEntry_ok heq
      obtain ⟨Δ, hΔ, hrec, hrec', hser⟩ := ih h
      by_cases he : enableRec = true
      · have hetmp := he
        refine ⟨.output (db nm) :: Δ, ?_, fun _ => ?_, fun hc => (bool_eq_tf hetmp hc).elim, ?_⟩
        · rw [hΔ, (hon he).1]
          simp
        · rw [hrec he]
          simp
        · intro e he2
          rcases List.mem_cons.mp he2 with he2 | he2
          · subst he2; exact (hon he).2
          · exact hser e he2
      · have he' : enableRec = false := (Bool.not_eq_true _) ▸ he
        refine ⟨Δ, ?_, fun hc => absurd hc he, fun _ => hrec' he', hser⟩
        rw [hΔ, hoff he']

theorem recordNodeState_shape {serFail : FrameEntry Val → Bool} {enableRec : Bool}
    {states : String → Val} {name : String} {frame frame2 : List (FrameEntry Val)}
    (h : recordNodeState serFail enableRec states name frame = .ok frame2) :
    (enableRec = true →
      frame2 = frame ++ [.nodeState (states name)] ∧
      serFail (.nodeState (states name)) = false) ∧
    (enableRec = false → frame2 = frame) := by
  unfold recordNodeState at h
  obtain ⟨hon, hoff⟩ := serializeEntry_ok h
  exact ⟨hon, hoff⟩

/-- The setup-node phase only appends node-invocation events to the trace,
and appends exactly one `output` frame entry per declared setup main output
(when recording is on). -/
theorem runSetupNodes_shape {w : RunWorld Val} {params : String → Val}
    {subscribed : List String} {dflt : String → Option Val} {enableRec : Bool} :
    ∀ {nodes : List (CNode Val)} {acc acc2 : RunAcc Val},
      runSetupNodes w params subscribed dflt enableRec nodes acc = .ok acc2 →
      (∃ tΔ, acc2.trace = acc.trace ++ tΔ ∧ ∀ e ∈ tΔ, isNodeCycleEvent e = true) ∧
      (∃ fΔ, acc2.frame = acc.frame ++ fΔ ∧
        (enableRec = false → fΔ = []) ∧
        (enableRec = true →
          List.Forall₂ (fun (_nm : String) (e : FrameEntry Val) => ∃ v, e = .output v)
            (nodes.flatMap fun nd => nd.mainOutputs) fΔ) ∧
        (∀ e ∈ fΔ, w.serFail e = false)) := by
  intro nodes
  induction nodes with
  | nil =>
    intro acc acc2 h
    cases h
    exact ⟨⟨[], by simp, by simp⟩, ⟨[], by simp, fun _ => rfl, fun _ => by simp, by simp⟩⟩
  | cons nd rest ih =>
    intro acc acc2 h
    unfold runSetupNodes at h
    split at h
    · cases h
    · next acc1 inv hw =>
      split at h
      · cases h
      · next frame1 hr =>
        obtain ⟨⟨tΔ, htΔ, htmem⟩, ⟨fΔ, hfΔ, hfoff, hfon, hfser⟩⟩ := ih h
        obtain ⟨htr1, hfr1⟩ := writeMainOutputsFromNode_trace hw
        obtain ⟨Δ0, hΔ0, hon0, hoff0, hser0⟩ := recordMainOutputs_shape hr
        constructor
        · rcases htr1 with h1 | h1
          · exact ⟨tΔ, by rw [htΔ]; rw [h1], htmem⟩
          · refine ⟨.nodeCycleStarted nd.name :: tΔ, ?_, ?_⟩
            · rw [htΔ]
              simp only [h1]
              simp
            · intro e he
              rcases List.mem_cons.mp he with he | he
              · subst he; rfl
              · exact htmem e he
        · refine ⟨Δ0 ++ fΔ, ?_, ?_, ?_, ?_⟩
          · rw [hfΔ]
            simp only [hΔ0, hfr1]
            simp
          · intro hoff
            rw [hoff0 hoff, hfoff hoff]
            rfl
          · intro hon
            rw [hon0 hon]
            simp only [List.flatMap_cons]
            refine List.rel_append ?_ (hfon hon)
            rw [List.forall₂_map_right_iff]
            exact List.forall₂_same.mpr (fun nm _hnm => ⟨acc1.db nm, rfl⟩)
          · intro e he
            rcases List.mem_append.mp he with he | he
            · exact hser0 e he
            · exact hfser e he

/-- The cycle-node phase only appends node-invocation events to the trace,
and appends exactly one `nodeState` frame entry per cycle node (when
recording is on). -/
theorem runCycleNodes_shape {w : RunWorld Val} {params : String → Val}
    {subscribed : List String} {dflt : String → Option Val} {enableRec : Bool} :
    ∀ {nodes : List (CNode Val)} {acc acc2 : RunAcc Val},
      runCycleNodes w params subscribed dflt enableRec nodes acc = .ok acc2 →
      (∃ tΔ, acc2.trace = acc.trace ++ tΔ ∧ ∀ e ∈ tΔ, isNodeCycleEvent e = true) ∧
      (∃ fΔ, acc2.frame = acc.frame ++ fΔ ∧
        (enableRec = false → fΔ = []) ∧
        (enableRec = true →
          List.Forall₂ (fun (_nd : CNode Val) (e : FrameEntry Val) => ∃ s, e = .nodeState s)
            nodes fΔ) ∧
        (∀ e ∈ fΔ, w.serFail e = false)) := by
  intro nodes
  induction nodes with
  | nil =>
    intro acc acc2 h
    cases h
    exact ⟨⟨[], by simp, by simp⟩, ⟨[], by simp, fun _ => rfl, fun _ => by simp, by simp⟩⟩
  | cons nd rest ih =>
    intro acc acc2 h
    unfold runCycleNodes at h
    split at h
    · cases h
    · next frame1 hr =>
      split at h
      · cases h
      · next acc1 inv hw =>
        obtain ⟨⟨tΔ, htΔ, htmem⟩, ⟨fΔ, hfΔ, hfoff, hfon, hfser⟩⟩ := ih h
        obtain ⟨htr1, hfr1⟩ := writeMainOutputsFromNode_trace hw
        obtain ⟨hon0, hoff0⟩ := recordNodeState_shape hr
        constructor
        · rcases htr1 with h1 | h1
          · exact ⟨tΔ, by rw [htΔ]; rw [h1], htmem⟩
          · refine ⟨.nodeCycleStarted nd.name :: tΔ, ?_, ?_⟩
            · rw [htΔ]
              simp only [h1]
              simp
            · intro e he
              rcases List.mem_cons.mp he with he | he
              · subst he; rfl
              · exact htmem e he
        · by_cases he : enableRec = true
          · refine ⟨.nodeState (acc.states nd.name) :: fΔ, ?_, ?_, ?_, ?_⟩
            · rw [hfΔ]
              simp only [hfr1, (hon0 he).1]
              simp
            · intro hc
              exact (bool_eq_tf he hc).elim
            · intro _
              exact List.Forall₂.cons ⟨acc.states nd.name, rfl⟩ (hfon he)
            · intro e he2
              rcases List.mem_cons.mp he2 with he2 | he2
              · subst he2; exact (hon0 he).2
              · exact hfser e he2
          · have he' : enableRec = false := (Bool.not_eq_true _) ▸ he
            refine ⟨fΔ, ?_, fun _ => hfoff he', fun hc => absurd hc he, hfser⟩
            rw [hfΔ]
            simp only [hfr1, hoff0 he']

theorem recordCrossInputs_shape {w : RunWorld Val} {cs : String → Val}
    {db : String → Option Val} :
    ∀ {fields : List CField} {frame frame2 : List (FrameEntry Val)},
      recordCrossInputs w true cs db fields frame = .ok frame2 →
      ∃ Δ, frame2 = frame ++ Δ ∧
        List.Forall₂ (fun f e => crossRecordedEntry w cs db f = .ok e)
          fields Δ ∧
        (∀ e ∈ Δ, w.serFail e = false) := by
  intro fields
  induction fields with
  | nil =>
    intro frame frame2 h
    cases h
    exact ⟨[], by simp, List.Forall₂.nil, by simp⟩
  | cons f rest ih =>
    intro frame frame2 h
    unfold recordCrossInputs at h
    rw [if_pos rfl] at h
    split at h
    · cases h
    · next entry hentry =>
      split at h
      · cases h
      · next frame1 hser =>
        obtain ⟨hon, _⟩ := serializeEntry_ok hser
        obtain ⟨hfr1, hsf⟩ := hon rfl
        obtain ⟨Δ, hΔ, hforall, hserall⟩ := ih h
        refine ⟨entry :: Δ, ?_, List.Forall₂.cons hentry hforall, ?_⟩
        · rw [hΔ, hfr1]
          simp
        · intro e he
          rcases List.mem_cons.mp he with he | he
          · subst he; exact hsf
          · exact hserall e he

/-- When recording is disabled, no cross-input value is recorded. -/
theorem recordCrossInputs_off {w : RunWorld Val} {cs : String → Val}
    {db : String → Option Val} {fields : List CField}
    {frame frame2 : List (FrameEntry Val)}
    (h : recordCrossInputs w false cs db fields frame = .ok frame2) :
    frame2 = frame := by
  cases fields with
  | nil => cases h; rfl
  | cons f rest =>
    unfold recordCrossInputs at h
    simp only [Bool.false_eq_true, if_false] at h
    cases h
    rfl

/-- Structural inversion of a successful Run-mode cycle: the three phases
succeeded in order, and the published database, frame, machine update and
trace are assembled from their results. -/
theorem runCycle_ok_elim {cy : CCycler Val} {inst : TopologyInstances}
    {dflt : String → Option Val} {m : CyclerMachine Val} {w : RunWorld Val}
    {m2 : CyclerMachine Val} {db : String → Option Val}
    {frame : List (FrameEntry Val)} {tr : List (CEvent Val)} {enr : Bool}
    (henr : (m.enable_recording && w.shouldRecord) = enr)
    (h : runCycle cy inst dflt m w = .ok (m2, db, frame, tr)) :
    ∃ acc1 frame1 acc3,
      runSetupNodes w (w.paramsAt 0) (w.subscribedAt 0) dflt enr cy.setupNodes
        { cs := m.cycler_state, states := m.node_states, db := m.buf_a, frame := [],
          trace := [CEvent.shouldRecordCheck]
            ++ [.subscribedRead 0, .paramsRead 0] } = .ok acc1 ∧
      recordCrossInputs w enr acc1.cs acc1.db
        (get_cross_inputs cy) acc1.frame = .ok frame1 ∧
      runCycleNodes w (w.paramsAt 1) (w.subscribedAt 1) dflt enr cy.cycleNodes
        { acc1 with
          frame := frame1,
          trace := acc1.trace ++ [CEvent.getNow]
            ++ handoffEvents cy.kind inst.perception w.now
            ++ [.subscribedRead 1, .paramsRead 1]
            ++ readerLockEvents cy.kind inst.realtime } = .ok acc3 ∧
      db = acc3.db ∧ frame = acc3.frame ∧
      m2 = { m with
        cycler_state := acc3.cs,
        node_states := acc3.states,
        buf_a := m.buf_b,
        buf_b := acc3.db } ∧
      (enr = true →
        w.sinkFull = false ∧
        tr = acc3.trace
          ++ postProcessingEvents cy.kind w.now w.firstTemporaryTimestamp acc3.db
          ++ [.trySendFrame acc3.frame] ++ [.notifyOne]) ∧
      (enr = false →
        tr = acc3.trace
          ++ postProcessingEvents cy.kind w.now w.firstTemporaryTimestamp acc3.db
          ++ [.notifyOne]) := by
  unfold runCycle at h
  cases enr with
  | true =>
    simp only [henr, eq_self_iff_true, if_true] at h
    split at h
    · cases h
    · next acc1 hsetup =>
      split at h
      · cases h
      · next frame1 hcross =>
        split at h
        · cases h
        · next acc3 hcycle =>
          split at h
          · cases h
          · next hs =>
            cases h
            refine ⟨acc1, frame1, acc3, hsetup, hcross, hcycle, rfl, rfl, rfl, ?_, ?_⟩
            · intro _
              exact ⟨(Bool.not_eq_true _) ▸ hs, by simp⟩
            · intro hc
              cases hc
  | false =>
    simp only [henr, Bool.false_eq_true, if_false] at h
    split at h
    · cases h
    · next acc1 hsetup =>
      split at h
      · cases h
      · next frame1 hcross =>
        split at h
        · cases h
        · next acc3 hcycle =>
          cases h
          refine ⟨acc1, frame1, acc3, hsetup, hcross, hcycle, rfl, rfl, rfl, ?_, ?_⟩
          · intro hc
            cases hc
          · intro _
            simp

/-- The event trace of a successful Run-mode cycle, decomposed into its
program-order segments; the node phases contribute only node-invocation
events. -/
theorem runCycle_trace_decomposition {cy : CCycler Val} {inst : TopologyInstances}
    {dflt : String → Option Val} {m : CyclerMachine Val} {w : RunWorld Val}
    {m2 : CyclerMachine Val} {db : String → Option Val}
    {frame : List (FrameEntry Val)} {tr : List (CEvent Val)} {enr : Bool}
    (henr : (m.enable_recording && w.shouldRecord) = enr)
    (h : runCycle cy inst dflt m w = .ok (m2, db, frame, tr)) :
    ∃ tΔs tΔc : List (CEvent Val),
      (∀ e ∈ tΔs, isNodeCycleEvent e = true) ∧
      (∀ e ∈ tΔc, isNodeCycleEvent e = true) ∧
      tr = [CEvent.shouldRecordCheck, .subscribedRead 0, .paramsRead 0] ++ tΔs
        ++ [CEvent.getNow] ++ handoffEvents cy.kind inst.perception w.now
        ++ [.subscribedRead 1, .paramsRead 1]
        ++ readerLockEvents cy.kind inst.realtime ++ tΔc
        ++ postProcessingEvents cy.kind w.now w.firstTemporaryTimestamp db
        ++ (if enr then [CEvent.trySendFrame frame] else []) ++ [CEvent.notifyOne] := by
  obtain ⟨acc1, frame1, acc3, hsetup, hcross, hcycle, hdb, hframe, hm2, hon, hoff⟩ :=
    runCycle_ok_elim henr h
  obtain ⟨⟨tΔs, htΔs, htsmem⟩, _⟩ := runSetupNodes_shape hsetup
  obtain ⟨⟨tΔc, htΔc, htcmem⟩, _⟩ := runCycleNodes_shape hcycle
  refine ⟨tΔs, tΔc, htsmem, htcmem, ?_⟩
  have hacc3 : acc3.trace =
      [CEvent.shouldRecordCheck, .subscribedRead 0, .paramsRead 0] ++ tΔs
        ++ [CEvent.getNow] ++ handoffEvents cy.kind inst.perception w.now
        ++ [.subscribedRead 1, .paramsRead 1]
        ++ readerLockEvents cy.kind inst.realtime ++ tΔc := by
    rw [htΔc]
    simp only [htΔs]
    simp
  cases enr with
  | true =>
    obtain ⟨_, htr⟩ := hon rfl
    rw [htr, hacc3, hdb, hframe]
    simp
  | false =>
    rw [hoff rfl, hacc3, hdb]
    simp

theorem nodeCycle_events_filtered {p : CEvent Val → Bool}
    (hp : ∀ n, p (.nodeCycleStarted n) = false) :
    ∀ {l : List (CEvent Val)}, (∀ e ∈ l, isNodeCycleEvent e = true) →
      l.filter p = [] := by
  intro l hl
  rw [List.filter_eq_nil_iff]
  intro e he
  have := hl e he
  cases e <;> first
    | (rw [hp]; exact Bool.false_ne_true)
    | (cases this)

/-- C7 (claim theorem): in every successful Run-mode iteration, a RealTime
cycler performs exactly one `historic_databases.update` call, with the
current timestamp, the earliest timestamp of the perception databases'
temporary bucket as retention horizon, and the published main outputs — and
no `finalize`; a Perception cycler performs exactly one `finalize` call with
(a clone of) its published main outputs — and no historic update. -/
theorem post_processing_spec {cy : CCycler Val} {inst : TopologyInstances}
    {dflt : String → Option Val} {m : CyclerMachine Val} {w : RunWorld Val}
    {m2 : CyclerMachine Val} {db : String → Option Val}
    {frame : List (FrameEntry Val)} {tr : List (CEvent Val)} {enr : Bool}
    (henr : (m.enable_recording && w.shouldRecord) = enr)
    (h : runCycle cy inst dflt m w = .ok (m2, db, frame, tr)) :
    (cy.kind = .RealTime →
      tr.filter isHistoricUpdateEvent
        = [.historicUpdate w.now w.firstTemporaryTimestamp db] ∧
      tr.filter isFinalizeEvent = []) ∧
    (cy.kind = .Perception →
      tr.filter isFinalizeEvent = [.finalize db] ∧
      tr.filter isHistoricUpdateEvent = []) := by
  obtain ⟨tΔs, tΔc, hts, htc, htr⟩ := runCycle_trace_decomposition henr h
  have hΔs1 : tΔs.filter isHistoricUpdateEvent = [] :=
    nodeCycle_events_filtered (fun _ => rfl) hts
  have hΔc1 : tΔc.filter isHistoricUpdateEvent = [] :=
    nodeCycle_events_filtered (fun _ => rfl) htc
  have hΔs2 : tΔs.filter isFinalizeEvent = [] :=
    nodeCycle_events_filtered (fun _ => rfl) hts
  have hΔc2 : tΔc.filter isFinalizeEvent = [] :=
    nodeCycle_events_filtered (fun _ => rfl) htc
  constructor
  · intro hkind
    subst htr
    cases enr <;>
      simp [hkind, List.filter_append, hΔs1, hΔc1, hΔs2, hΔc2,
        handoffEvents, readerLockEvents, postProcessingEvents,
        isHistoricUpdateEvent, isFinalizeEvent, List.filter_eq_nil_iff, List.mem_map]
  · intro hkind
    subst htr
    cases enr <;>
      simp [hkind, List.filter_append, hΔs1, hΔc1, hΔs2, hΔc2,
        handoffEvents, readerLockEvents, postProcessingEvents,
        isHistoricUpdateEvent, isFinalizeEvent, List.filter_eq_nil_iff, List.mem_map]

/-- C6 (amended claim theorem): in every successful Run-mode iteration, a
RealTime cycler locks no peer Reader at all; it drains every Perception
instance's Consumer (in declaration order, at the current timestamp) into
`perception_databases.update` and never calls `announce`.  A Perception
cycler locks the Reader of every RealTime instance and calls `announce()` on
its own producer, and drains nothing. -/
theorem cross_cycler_gather_spec {cy : CCycler Val} {inst : TopologyInstances}
    {dflt : String → Option Val} {m : CyclerMachine Val} {w : RunWorld Val}
    {m2 : CyclerMachine Val} {db : String → Option Val}
    {frame : List (FrameEntry Val)} {tr : List (CEvent Val)} {enr : Bool}
    (henr : (m.enable_recording && w.shouldRecord) = enr)
    (h : runCycle cy inst dflt m w = .ok (m2, db, frame, tr)) :
    (cy.kind = .RealTime →
      tr.filter isReaderNextEvent = [] ∧
      tr.filter isConsumeEvent = inst.perception.map (fun i => CEvent.consume i w.now) ∧
      tr.filter isPerceptionUpdateEvent = [.perceptionUpdate w.now] ∧
      tr.filter isAnnounceEvent = []) ∧
    (cy.kind = .Perception →
      tr.filter isReaderNextEvent = inst.realtime.map (fun i => CEvent.readerNext i) ∧
      tr.filter isAnnounceEvent = [.announce] ∧
      tr.filter isConsumeEvent = [] ∧
      tr.filter isPerceptionUpdateEvent = []) := by
  obtain ⟨tΔs, tΔc, hts, htc, htr⟩ := runCycle_trace_decomposition henr h
  have h1 : tΔs.filter isReaderNextEvent = [] :=
    nodeCycle_events_filtered (fun _ => rfl) hts
  have h2 : tΔc.filter isReaderNextEvent = [] :=
    nodeCycle_events_filtered (fun _ => rfl) htc
  have h3 : tΔs.filter isConsumeEvent = [] :=
    nodeCycle_events_filtered (fun _ => rfl) hts
  have h4 : tΔc.filter isConsumeEvent = [] :=
    nodeCycle_events_filtered (fun _ => rfl) htc
  have h5 : tΔs.filter isPerceptionUpdateEvent = [] :=
    nodeCycle_events_filtered (fun _ => rfl) hts
  have h6 : tΔc.filter isPerceptionUpdateEvent = [] :=
    nodeCycle_events_filtered (fun _ => rfl) htc
  have h7 : tΔs.filter isAnnounceEvent = [] :=
    nodeCycle_events_filtered (fun _ => rfl) hts
  have h8 : tΔc.filter isAnnounceEvent = [] :=
    nodeCycle_events_filtered (fun _ => rfl) htc
  have hcm : (inst.perception.map fun i => (CEvent.consume i w.now : CEvent Val)).filter
      isConsumeEvent = inst.perception.map fun i => CEvent.consume i w.now :=
    List.filter_eq_self.mpr (by
      intro e he
      obtain ⟨i, _, rfl⟩ := List.mem_map.mp he
      rfl)
  have hrm : (inst.realtime.map fun i => (CEvent.readerNext i : CEvent Val)).filter
      isReaderNextEvent = inst.realtime.map fun i => CEvent.readerNext i :=
    List.filter_eq_self.mpr (by
      intro e he
      obtain ⟨i, _, rfl⟩ := List.mem_map.mp he
      rfl)
  constructor
  · intro hkind
    subst htr
    refine ⟨?_, ?_, ?_, ?_⟩ <;>
      cases enr <;>
        simp [hkind, List.filter_append, h1, h2, h3, h4, h5, h6, h7, h8, hcm, hrm,
          handoffEvents, readerLockEvents, postProcessingEvents,
          isReaderNextEvent, isConsumeEvent, isPerceptionUpdateEvent, isAnnounceEvent,
          List.filter_eq_nil_iff, List.mem_map]
  · intro hkind
    subst htr
    refine ⟨?_, ?_, ?_, ?_⟩ <;>
      cases enr <;>
        simp [hkind, List.filter_append, h1, h2, h3, h4, h5, h6, h7, h8, hcm, hrm,
          handoffEvents, readerLockEvents, postProcessingEvents,
          isReaderNextEvent, isConsumeEvent, isPerceptionUpdateEvent, isAnnounceEvent,
          List.filter_eq_nil_iff, List.mem_map]

/-- C9 (amended claim theorem): every successful Run-mode iteration reads the
parameters from the parameters reader exactly twice — once at the start of
the setup block (read index 0, seen by all setup nodes) and once at the
start of the cycle block (read index 1, seen by all cycle nodes). -/
theorem parameters_read_per_phase {cy : CCycler Val} {inst : TopologyInstances}
    {dflt : String → Option Val} {m : CyclerMachine Val} {w : RunWorld Val}
    {m2 : CyclerMachine Val} {db : String → Option Val}
    {frame : List (FrameEntry Val)} {tr : List (CEvent Val)} {enr : Bool}
    (henr : (m.enable_recording && w.shouldRecord) = enr)
    (h : runCycle cy inst dflt m w = .ok (m2, db, frame, tr)) :
    tr.filter isParamsReadEvent = [.paramsRead 0, .paramsRead 1] := by
  obtain ⟨tΔs, tΔc, hts, htc, htr⟩ := runCycle_trace_decomposition henr h
  have h1 : tΔs.filter isParamsReadEvent = [] :=
    nodeCycle_events_filtered (fun _ => rfl) hts
  have h2 : tΔc.filter isParamsReadEvent = [] :=
    nodeCycle_events_filtered (fun _ => rfl) htc
  subst htr
  cases hkind : cy.kind <;> cases enr <;>
    simp [hkind, List.filter_append, h1, h2,
      handoffEvents, readerLockEvents, postProcessingEvents, List.filter_map,
      isParamsReadEvent, List.filter_eq_nil_iff, List.mem_map, Function.comp]

/-! ### Concrete witness topology: an empty RealTime cycler -/

def witDflt : String → Option Nat := fun _q => none

def witM : CyclerMachine Nat :=
  { cycler_state := fun _q => 0, node_states := fun _q => 0,
    buf_a := fun _q => none, buf_b := fun _q => none, enable_recording := false }

def witW : RunWorld Nat :=
  { now := 5, shouldRecord := false,
    paramsAt := fun _i _q => 0, subscribedAt := fun _i => [],
    shouldBeFilled := fun _s _q => false, peerDb := fun _i _q => none,
    historic := [], percPersistent := [], percTemporary := [],
    firstTemporaryTimestamp := none, sinkFull := false, serFail := fun _e => false }

def witRT : CCycler Nat := { kind := .RealTime, setupNodes := [], cycleNodes := [] }

def witInst : TopologyInstances := { realtime := ["Control"], perception := ["Vision"] }

def witM2 : CyclerMachine Nat :=
  { cycler_state := witM.cycler_state, node_states := witM.node_states,
    buf_a := witM.buf_b, buf_b := witM.buf_a, enable_recording := false }

def witTrRT : List (CEvent Nat) :=
  [.shouldRecordCheck, .subscribedRead 0, .paramsRead 0, .getNow,
   .consume "Vision" 5, .perceptionUpdate 5, .subscribedRead 1, .paramsRead 1,
   .historicUpdate 5 none witM.buf_a, .notifyOne]

theorem witRT_runCycle :
    runCycle witRT witInst witDflt witM witW = .ok (witM2, witM.buf_a, [], witTrRT) := rfl

/-- Witness for `post_processing_spec` at the concrete empty RealTime
cycler: the single historic update carries `now = 5`, horizon `none`, and
the published database. -/
theorem post_processing_spec_witness :
    witTrRT.filter isHistoricUpdateEvent = [.historicUpdate 5 none witM.buf_a] ∧
    witTrRT.filter isFinalizeEvent = [] :=
  (post_processing_spec rfl witRT_runCycle).1 rfl

/-- Witness for `cross_cycler_gather_spec` at the concrete empty RealTime
cycler. -/
theorem cross_cycler_gather_spec_witness :
    witTrRT.filter isReaderNextEvent = [] ∧
    witTrRT.filter isConsumeEvent = [.consume "Vision" 5] ∧
    witTrRT.filter isPerceptionUpdateEvent = [.perceptionUpdate 5] ∧
    witTrRT.filter isAnnounceEvent = [] :=
  (cross_cycler_gather_spec rfl witRT_runCycle).1 rfl

/-- C6 counterexample: the generated RealTime cycler has a Perception peer
(`Vision`) yet its iteration locks no peer Reader at all — the claim that a
RealTime cycler "pulls the latest snapshot from every peer cycler's Reader"
is false (reader locking is done by Perception cyclers, over RealTime
instances). It does drain the peer's Consumer. -/
theorem cross_cycler_gather_counterexample :
    runCycle witRT witInst witDflt witM witW = .ok (witM2, witM.buf_a, [], witTrRT) ∧
    witRT.kind = CyclerKind.RealTime ∧
    witInst.perception = ["Vision"] ∧
    witTrRT.filter isReaderNextEvent = [] ∧
    CEvent.consume "Vision" 5 ∈ witTrRT :=
  ⟨witRT_runCycle, rfl, rfl, rfl, by simp [witTrRT]⟩

/-- Witness for `parameters_read_per_phase` at the concrete empty RealTime
cycler. -/
theorem parameters_read_per_phase_witness :
    witTrRT.filter isParamsReadEvent = [.paramsRead 0, .paramsRead 1] :=
  parameters_read_per_phase rfl witRT_runCycle

/-! ### C9 counterexample: a parameter-copying setup node and cycle node -/

def c9node (nm out : String) : CNode Nat :=
  { name := nm, cycleContext := [.parameter "p"], mainOutputs := [out],
    run := fun st ctx => .ok (st,
      (fun q => if q = out then
        some (match ctx with | [.value v] => v | _ => 99) else none),
      fun _p => 0) }

def c9cy : CCycler Nat :=
  { kind := .Perception, setupNodes := [c9node "s" "sa"], cycleNodes := [c9node "c" "ca"] }

def c9w : RunWorld Nat := { witW with paramsAt := fun i _q => i }

def c9result : Option Nat × Option Nat × Nat :=
  match runCycle c9cy witInst witDflt witM c9w with
  | .ok (_, db, _, tr) => (db "sa", db "ca", tr.countP isParamsReadEvent)
  | .error _ => (none, none, 0)

/-- C9 counterexample: with the parameters reader serving value 0 to its
first read and 1 to its second, the setup node stores 0 and the cycle node
stores 1 — the iteration reads the parameters twice, not once, and setup
and cycle nodes observe different parameter values. -/
theorem parameters_single_read_counterexample :
    c9result = (some 0, some 1, 2) := by decide

/-- C4 (claim theorem): with recording enabled
(`self.enable_recording && should_record()`), a full recording sink makes
the iteration return an error (the non-blocking `try_send` result is
propagated with `?`, never awaited and never ignored); a successful
recording iteration emitted exactly one `try_send` with the complete frame,
and every frame entry passed its serialization step (any `bincode` failure
would have aborted the iteration via `?`).  With recording disabled,
nothing is sent and the frame stays empty. -/
theorem recording_emission_spec {cy : CCycler Val} {inst : TopologyInstances}
    {dflt : String → Option Val} {m : CyclerMachine Val} {w : RunWorld Val} :
    ((m.enable_recording && w.shouldRecord) = true → w.sinkFull = true →
      ∀ r, runCycle cy inst dflt m w ≠ .ok r) ∧
    (∀ m2 db frame tr, runCycle cy inst dflt m w = .ok (m2, db, frame, tr) →
      ((m.enable_recording && w.shouldRecord) = true →
        w.sinkFull = false ∧
        tr.filter isTrySendEvent = [.trySendFrame frame] ∧
        ∀ e ∈ frame, w.serFail e = false) ∧
      ((m.enable_recording && w.shouldRecord) = false →
        tr.filter isTrySendEvent = [] ∧ frame = [])) := by
  constructor
  · intro henr hsink r hok
    obtain ⟨m2, db, frame, tr⟩ := r
    obtain ⟨_, _, _, _, _, _, _, _, _, hon, _⟩ := runCycle_ok_elim henr hok
    exact bool_eq_tf hsink (hon rfl).1
  · intro m2 db frame tr h
    constructor
    · intro henr
      obtain ⟨acc1, frame1, acc3, hsetup, hcross, hcycle, hdb, hframe, _, hon, _⟩ :=
        runCycle_ok_elim henr h
      obtain ⟨hsink, _⟩ := hon rfl
      obtain ⟨tΔs, tΔc, hts, htc, htr⟩ := runCycle_trace_decomposition henr h
      refine ⟨hsink, ?_, ?_⟩
      · have h1 : tΔs.filter isTrySendEvent = [] :=
          nodeCycle_events_filtered (fun _ => rfl) hts
        have h2 : tΔc.filter isTrySendEvent = [] :=
          nodeCycle_events_filtered (fun _ => rfl) htc
        subst htr
        cases hkind : cy.kind <;>
          simp [hkind, List.filter_append, h1, h2,
            handoffEvents, readerLockEvents, postProcessingEvents,
            isTrySendEvent, List.filter_eq_nil_iff, List.mem_map]
      · obtain ⟨_, ⟨fΔs, hfΔs, _, _, hserS⟩⟩ := runSetupNodes_shape hsetup
        obtain ⟨_, ⟨fΔc, hfΔc, _, _, hserC⟩⟩ := runCycleNodes_shape hcycle
        obtain ⟨Δx, hΔx, _, hserX⟩ := recordCrossInputs_shape hcross
        have hfr : frame = fΔs ++ (Δx ++ fΔc) := by
          simp [hframe, hfΔc, hΔx, hfΔs]
        intro e he
        rw [hfr] at he
        simp only [List.mem_append] at he
        rcases he with he | he | he
        · exact hserS e he
        · exact hserX e he
        · exact hserC e he
    · intro henr
      obtain ⟨acc1, frame1, acc3, hsetup, hcross, hcycle, hdb, hframe, _, _, hoff⟩ :=
        runCycle_ok_elim henr h
      obtain ⟨tΔs, tΔc, hts, htc, htr⟩ := runCycle_trace_decomposition henr h
      constructor
      · have h1 : tΔs.filter isTrySendEvent = [] :=
          nodeCycle_events_filtered (fun _ => rfl) hts
        have h2 : tΔc.filter isTrySendEvent = [] :=
          nodeCycle_events_filtered (fun _ => rfl) htc
        subst htr
        cases hkind : cy.kind <;>
          simp [hkind, List.filter_append, h1, h2,
            handoffEvents, readerLockEvents, postProcessingEvents,
            isTrySendEvent, List.filter_eq_nil_iff, List.mem_map]
      · obtain ⟨_, ⟨fΔs, hfΔs, hoffS, _, _⟩⟩ := runSetupNodes_shape hsetup
        obtain ⟨_, ⟨fΔc, hfΔc, hoffC, _, _⟩⟩ := runCycleNodes_shape hcycle
        have hΔx : frame1 = acc1.frame := recordCrossInputs_off hcross
        rw [hframe, hfΔc, hoffC rfl]
        simp only [hΔx, hfΔs, hoffS rfl]
        simp

/-! ### Recording-enabled witness topology (empty Perception cycler) -/

def witMrec : CyclerMachine Nat := { witM with enable_recording := true }

def witWrec : RunWorld Nat := { witW with shouldRecord := true }

def witWfull : RunWorld Nat := { witWrec with sinkFull := true }

def witPc : CCycler Nat := { kind := .Perception, setupNodes := [], cycleNodes := [] }

def witTrPc : List (CEvent Nat) :=
  [.shouldRecordCheck, .subscribedRead 0, .paramsRead 0, .getNow, .announce,
   .subscribedRead 1, .paramsRead 1, .readerNext "Control",
   .finalize witM.buf_a, .trySendFrame [], .notifyOne]

theorem witPc_runCycle :
    runCycle witPc witInst witDflt witMrec witWrec
      = .ok ({ witMrec with buf_a := witMrec.buf_b, buf_b := witMrec.buf_a },
          witMrec.buf_a, [], witTrPc) := rfl

/-- Witness for `recording_emission_spec`: on the empty recording-enabled
Perception cycler, a full sink forbids success, and the successful run with
a free sink emitted exactly one `try_send` of its (empty) frame. -/
theorem recording_emission_spec_witness :
    (∀ r, runCycle witPc witInst witDflt witMrec witWfull ≠ .ok r) ∧
    witTrPc.filter isTrySendEvent = [.trySendFrame []] := by
  constructor
  · exact (@recording_emission_spec Nat _ witPc witInst witDflt witMrec witWfull).1 rfl rfl
  · exact (((@recording_emission_spec Nat _ witPc witInst witDflt witMrec witWrec).2
      _ _ _ _ witPc_runCycle).1 rfl).2.1

/-- C1 (amended claim theorem): in the generated per-node execution block,
if any declared RequiredInput is absent the node's cycle function is not
invoked (no invocation event, `invoked = false`) and each declared
MainOutput database field is set to its Default value, all other fields
untouched; if all are present, the node's cycle function is invoked and
each returned main-output value is written to its database field. -/
theorem required_input_gating {w : RunWorld Val} {params : String → Val}
    {subscribed : List String} {dflt : String → Option Val}
    (acc : RunAcc Val) (node : CNode Val) :
    (requiredInputsSome w.peerDb acc.db node = false →
      ∃ acc2, writeMainOutputsFromNode w params subscribed dflt acc node = .ok (acc2, false) ∧
        (∀ nm ∈ node.mainOutputs, acc2.db nm = dflt nm) ∧
        (∀ p, p ∉ node.mainOutputs → acc2.db p = acc.db p) ∧
        acc2.trace = acc.trace ∧ acc2.cs = acc.cs ∧ acc2.states = acc.states) ∧
    (requiredInputsSome w.peerDb acc.db node = true →
      ∀ st outs cs,
        node.run (acc.states node.name)
          (node.cycleContext.map (resolveRunField w params subscribed acc.cs acc.db))
          = .ok (st, outs, cs) →
        ∃ acc2, writeMainOutputsFromNode w params subscribed dflt acc node = .ok (acc2, true) ∧
          (∀ nm ∈ node.mainOutputs, acc2.db nm = outs nm) ∧
          (∀ p, p ∉ node.mainOutputs → acc2.db p = acc.db p) ∧
          acc2.trace = acc.trace ++ [.nodeCycleStarted node.name]) := by
  constructor
  · intro hgate
    refine ⟨{ acc with db := fun p => if p ∈ node.mainOutputs then dflt p else acc.db p },
      ?_, ?_, ?_, rfl, rfl, rfl⟩
    · unfold writeMainOutputsFromNode
      rw [hgate]
      simp
    · intro nm hnm
      simp [hnm]
    · intro p hp
      simp [hp]
  · intro hgate st outs cs hrun
    refine ⟨{ acc with
        cs := fun p => if CField.cyclerState p ∈ node.cycleContext then cs p else acc.cs p,
        states := fun n => if n = node.name then st else acc.states n,
        db := fun p => if p ∈ node.mainOutputs then outs p else acc.db p,
        trace := acc.trace ++ [.nodeCycleStarted node.name] },
      ?_, ?_, ?_, rfl⟩
    · unfold writeMainOutputsFromNode
      rw [hgate, hrun]
      rfl
    · intro nm hnm
      simp [hnm]
    · intro p hp
      simp [hp]

/-- Witness for `required_input_gating`: a node with one own-database
required input, exercised in both the absent and the present case. -/
def c1wnode : CNode Nat :=
  { name := "n", cycleContext := [.requiredInput none "x"], mainOutputs := ["y"],
    run := fun st _ctx => .ok (st, (fun q => if q = "y" then some 42 else none), fun _p => 0) }

def c1accAbsent : RunAcc Nat :=
  { cs := fun _p => 0, states := fun _n => 0, db := fun _q => none, frame := [], trace := [] }

def c1accPresent : RunAcc Nat :=
  { c1accAbsent with db := fun q => if q = "x" then some 1 else none }

theorem required_input_gating_witness :
    (∃ acc2, writeMainOutputsFromNode witW (fun _p => 0) [] witDflt c1accAbsent c1wnode
        = .ok (acc2, false) ∧
      (∀ nm ∈ c1wnode.mainOutputs, acc2.db nm = witDflt nm) ∧
      (∀ p, p ∉ c1wnode.mainOutputs → acc2.db p = c1accAbsent.db p) ∧
      acc2.trace = c1accAbsent.trace ∧ acc2.cs = c1accAbsent.cs ∧
      acc2.states = c1accAbsent.states) ∧
    (∃ acc2, writeMainOutputsFromNode witW (fun _p => 0) [] witDflt c1accPresent c1wnode
        = .ok (acc2, true) ∧
      (∀ nm ∈ c1wnode.mainOutputs, acc2.db nm = some 42) ∧
      (∀ p, p ∉ c1wnode.mainOutputs → acc2.db p = c1accPresent.db p) ∧
      acc2.trace = c1accPresent.trace ++ [.nodeCycleStarted "n"]) := by
  constructor
  · exact (@required_input_gating Nat _ witW (fun _p => 0) [] witDflt
      c1accAbsent c1wnode).1 rfl
  · have h := (@required_input_gating Nat _ witW (fun _p => 0) [] witDflt
      c1accPresent c1wnode).2 rfl 0
      (fun q => if q = "y" then some 42 else none) (fun _p => 0) rfl
    obtain ⟨acc2, heq, hout, huntouched, htrace⟩ := h
    refine ⟨acc2, heq, ?_, huntouched, htrace⟩
    intro nm hnm
    have hy : nm = "y" := by simpa [c1wnode] using hnm
    subst hy
    simpa using hout "y" hnm

/-! ### C1 counterexample: recording panics on an absent cross-cycler
required input before the gating block can apply defaults -/

def c1node : CNode Nat :=
  { name := "n", cycleContext := [.requiredInput (some "Vision") "x"],
    mainOutputs := ["y"],
    run := fun st _ctx => .ok (st, (fun q => if q = "y" then some 42 else none), fun _p => 0) }

def c1cy : CCycler Nat := { kind := .RealTime, setupNodes := [], cycleNodes := [c1node] }

def c1m : CyclerMachine Nat :=
  { witMrec with buf_a := fun q => if q = "y" then some 5 else none }

/-- C1 counterexample: in Run mode with recording enabled, an absent
cross-cycler RequiredInput (`Vision.x` is `None`) makes the generated
cross-input recording `unwrap()` panic before the node's execution block
runs: the iteration aborts with an error, the node is not invoked, and the
declared MainOutput `y` is *not* set to its default — contradicting the
claim that such an iteration skips the node and writes defaults. -/
theorem required_input_gating_counterexample :
    requiredInputsSome witWrec.peerDb c1m.buf_a c1node = false ∧
    runCycle c1cy witInst witDflt c1m witWrec
      = .error "panicked: called `Option::unwrap()` on a `None` value" :=
  ⟨rfl, rfl⟩

/-- The frame-entry constructor recorded for each cross-input field kind. -/
def crossEntryShape : CField → FrameEntry Val → Prop
  | .cyclerState _, e => ∃ v, e = .cyclerStateVal v
  | .historicInput _, e => ∃ mta, e = .historicMap mta
  | .input (some _) _, e => ∃ v, e = .inputVal v
  | .perceptionInput _ _, e => ∃ pm tm, e = .perceptionMaps pm tm
  | .requiredInput (some _) _, e => ∃ v, e = .requiredVal v
  | _, _ => False

theorem crossRecordedEntry_shape {w : RunWorld Val} {cs : String → Val}
    {db : String → Option Val} {f : CField} {e : FrameEntry Val}
    (h : crossRecordedEntry w cs db f = .ok e) : crossEntryShape f e := by
  cases f with
  | cyclerState path => cases h; exact ⟨_, rfl⟩
  | historicInput path => cases h; exact ⟨_, rfl⟩
  | input ci path =>
    cases ci with
    | none => cases h
    | some i => cases h; exact ⟨_, rfl⟩
  | perceptionInput i path => cases h; exact ⟨_, _, rfl⟩
  | requiredInput ci path =>
    cases ci with
    | none => cases h
    | some i =>
      simp only [crossRecordedEntry] at h
      cases hp : w.peerDb i path with
      | some v =>
        rw [hp] at h
        cases h
        exact ⟨_, rfl⟩
      | none =>
        rw [hp] at h
        cases h
  | additionalOutput path => cases h
  | hardwareInterface => cases h
  | parameter path => cases h

/-- C5 (amended claim theorem): the recording frame of a successful
recording-enabled Run iteration is the fixed-order concatenation of
three segments: (1) one `output` entry per declared main output of each
*setup* node, in node/declaration order; (2) one entry per cross-boundary
input field, in the fixed cross-input order, with the constructor matching
the field kind; (3) one `nodeState` entry per *cycle* node, in node order.
Cycle-node main outputs and setup-node states are never recorded. -/
theorem recording_frame_layout {cy : CCycler Val} {inst : TopologyInstances}
    {dflt : String → Option Val} {m : CyclerMachine Val} {w : RunWorld Val}
    {m2 : CyclerMachine Val} {db : String → Option Val}
    {frame : List (FrameEntry Val)} {tr : List (CEvent Val)}
    (henr : (m.enable_recording && w.shouldRecord) = true)
    (h : runCycle cy inst dflt m w = .ok (m2, db, frame, tr)) :
    ∃ seg1 seg2 seg3 : List (FrameEntry Val),
      frame = seg1 ++ seg2 ++ seg3 ∧
      List.Forall₂ (fun (_nm : String) e => ∃ v, e = FrameEntry.output v)
        (cy.setupNodes.flatMap fun nd => nd.mainOutputs) seg1 ∧
      List.Forall₂ crossEntryShape (get_cross_inputs cy) seg2 ∧
      List.Forall₂ (fun (_nd : CNode Val) e => ∃ s, e = FrameEntry.nodeState s)
        cy.cycleNodes seg3 := by
  obtain ⟨acc1, frame1, acc3, hsetup, hcross, hcycle, hdb, hframe, _, _, _⟩ :=
    runCycle_ok_elim henr h
  obtain ⟨_, ⟨fΔs, hfΔs, _, honS, _⟩⟩ := runSetupNodes_shape hsetup
  obtain ⟨_, ⟨fΔc, hfΔc, _, honC, _⟩⟩ := runCycleNodes_shape hcycle
  obtain ⟨Δx, hΔx, hforall, _⟩ := recordCrossInputs_shape hcross
  refine ⟨fΔs, Δx, fΔc, ?_, honS rfl,
    hforall.imp (fun a b hab => crossRecordedEntry_shape hab), honC rfl⟩
  simp [hframe, hfΔc, hΔx, hfΔs]

/-- Witness for `recording_frame_layout` on the recording-enabled empty
Perception cycler: the frame decomposes into three (empty) segments. -/
theorem recording_frame_layout_witness :
    ∃ seg1 seg2 seg3 : List (FrameEntry Nat),
      ([] : List (FrameEntry Nat)) = seg1 ++ seg2 ++ seg3 ∧
      List.Forall₂ (fun (_nm : String) e => ∃ v, e = FrameEntry.output v)
        (witPc.setupNodes.flatMap fun nd => nd.mainOutputs) seg1 ∧
      List.Forall₂ crossEntryShape (get_cross_inputs witPc) seg2 ∧
      List.Forall₂ (fun (_nd : CNode Nat) e => ∃ s, e = FrameEntry.nodeState s)
        witPc.cycleNodes seg3 :=
  recording_frame_layout (m := witMrec) (w := witWrec) rfl witPc_runCycle

/-- Modelled from the spec (§3 RecordingFrame; claim C5): "payload =
fixed-order concatenation of every cross-boundary value consumed this
iteration + every node's opaque persisted state + every produced main
output", with "every node" covering both setup and cycle nodes.  The
cross-boundary values, node states and outputs are evaluated against the
same iteration data the generated recorder uses. -/
def claimedRecordingPayload (w : RunWorld Val) (cy : CCycler Val)
    (cs : String → Val) (db : String → Option Val) (states : String → Val) :
    List (FrameEntry Val) :=
  ((get_cross_inputs cy).filterMap fun f =>
    match crossRecordedEntry w cs db f with
    | .ok e => some e
    | .error _ => none)
  ++ ((cy.setupNodes ++ cy.cycleNodes).map fun nd => FrameEntry.nodeState (states nd.name))
  ++ ((cy.setupNodes ++ cy.cycleNodes).flatMap fun nd =>
        nd.mainOutputs.map fun nm => FrameEntry.output (db nm))

/-! ### C5 counterexample topology: one setup node, one cycle node -/

def c5setup : CNode Nat :=
  { name := "s", cycleContext := [], mainOutputs := ["a"],
    run := fun st _ctx => .ok (st, (fun q => if q = "a" then some 1 else none), fun _p => 0) }

def c5cycle : CNode Nat :=
  { name := "c", cycleContext := [], mainOutputs := ["x"],
    run := fun st _ctx => .ok (st, (fun q => if q = "x" then some 2 else none), fun _p => 0) }

def c5cy : CCycler Nat :=
  { kind := .Perception, setupNodes := [c5setup], cycleNodes := [c5cycle] }

def c5m : CyclerMachine Nat :=
  { witMrec with node_states := fun n => if n = "s" then 10 else 20 }

def c5frame : List (FrameEntry Nat) :=
  match runCycle c5cy witInst witDflt c5m witWrec with
  | .ok (_, _, frame, _) => frame
  | .error _ => []

def c5publishedDb : String → Option Nat :=
  fun q => if q = "a" then some 1 else if q = "x" then some 2 else none

/-- C5 counterexample: the generated recorder emits the setup node's output
followed by the cycle node's state — two entries — whereas the claimed
payload (all cross values, then both nodes' states, then both nodes'
outputs) has four entries in a different order: cycle-node outputs and
setup-node states are never recorded, and the segments' order differs. -/
theorem recording_frame_layout_counterexample :
    c5frame = [.output (some 1), .nodeState 20] ∧
    claimedRecordingPayload witWrec c5cy c5m.cycler_state c5publishedDb c5m.node_states
      = [.nodeState 10, .nodeState 20, .output (some 1), .output (some 2)] ∧
    c5frame ≠ claimedRecordingPayload witWrec c5cy c5m.cycler_state c5publishedDb
      c5m.node_states := by
  refine ⟨rfl, rfl, ?_⟩
  intro hc
  rw [show c5frame = [.output (some 1), .nodeState 20] from rfl] at hc
  rw [show claimedRecordingPayload witWrec c5cy c5m.cycler_state c5publishedDb
      c5m.node_states = [.nodeState 10, .nodeState 20, .output (some 1), .output (some 2)]
    from rfl] at hc
  cases hc

/-! ### Replay-side inversion and consumption lemmas -/

theorem replayCycle_ok_elim {cy : CCycler Val} {inst : TopologyInstances}
    {dflt : String → Option Val} {m : CyclerMachine Val} {rw : ReplayWorld Val}
    {now : Nat} {frame : List (FrameEntry Val)}
    {m2 : CyclerMachine Val} {db : String → Option Val} {tr : List (CEvent Val)}
    (h : replayCycle cy inst dflt m rw now frame = .ok (m2, db, tr)) :
    ∃ db1 frame1 env1 frame2 acc1 frameRest,
      replaySetupNodes cy.setupNodes m.buf_a frame = .ok (db1, frame1) ∧
      extractCrossInputs (get_cross_inputs cy) frame1
        { csVars := fun _p => default, fixedVars := fun _g => FrameEntry.nodeState default }
        = .ok (env1, frame2) ∧
      replayCycleNodes rw (rw.paramsAt 1) (rw.subscribedAt 1) dflt cy.cycleNodes
        { env := env1, states := m.node_states, db := db1,
          trace := [.subscribedRead 0, .paramsRead 0]
            ++ handoffEvents cy.kind inst.perception now
            ++ [.subscribedRead 1, .paramsRead 1]
            ++ readerLockEvents cy.kind inst.realtime } frame2
        = .ok (acc1, frameRest) ∧
      db = acc1.db ∧
      m2 = { m with node_states := acc1.states, buf_a := m.buf_b, buf_b := acc1.db } ∧
      tr = acc1.trace
        ++ postProcessingEvents cy.kind now rw.firstTemporaryTimestamp acc1.db
        ++ [.notifyOne] := by
  unfold replayCycle at h
  dsimp only [] at h
  split at h
  · cases h
  · next setupRes hsetup =>
    split at h
    · cases h
    · next extractRes hextract =>
      split at h
      · cases h
      · next cycleRes hcycle =>
        cases h
        exact ⟨setupRes.1, setupRes.2, extractRes.1, extractRes.2,
          cycleRes.1, cycleRes.2, hsetup, hextract, hcycle, rfl, rfl, rfl⟩

theorem writeMainOutputsFromFrame_consume :
    ∀ {names : List String} {db db2 : String → Option Val}
      {frame rest : List (FrameEntry Val)},
      writeMainOutputsFromFrame names db frame = .ok (db2, rest) →
      ∃ used, frame = used ++ rest ∧
        List.Forall₂ (fun (_nm : String) e => ∃ v, e = FrameEntry.output v) names used := by
  intro names
  induction names with
  | nil =>
    intro db db2 frame rest h
    cases h
    exact ⟨[], by simp, List.Forall₂.nil⟩
  | cons nm rest2 ih =>
    intro db db2 frame rest h
    unfold writeMainOutputsFromFrame at h
    split at h
    · next v fr =>
      obtain ⟨used, hused, hforall⟩ := ih h
      exact ⟨.output v :: used, by simp [hused], List.Forall₂.cons ⟨v, rfl⟩ hforall⟩
    · cases h

theorem replaySetupNodes_consume :
    ∀ {nodes : List (CNode Val)} {db db2 : String → Option Val}
      {frame rest : List (FrameEntry Val)},
      replaySetupNodes nodes db frame = .ok (db2, rest) →
      ∃ used, frame = used ++ rest ∧
        List.Forall₂ (fun (_nm : String) e => ∃ v, e = FrameEntry.output v)
          (nodes.flatMap fun nd => nd.mainOutputs) used := by
  intro nodes
  induction nodes with
  | nil =>
    intro db db2 frame rest h
    cases h
    exact ⟨[], by simp, by simp⟩
  | cons nd rest2 ih =>
    intro db db2 frame rest h
    unfold replaySetupNodes at h
    split at h
    · cases h
    · next db1 frame1 hw =>
      obtain ⟨used1, hused1, hforall1⟩ := writeMainOutputsFromFrame_consume hw
      obtain ⟨used2, hused2, hforall2⟩ := ih h
      refine ⟨used1 ++ used2, ?_, ?_⟩
      · rw [hused1, hused2]
        simp
      · simp only [List.flatMap_cons]
        exact List.rel_append hforall1 hforall2

theorem extractCrossInputs_consume :
    ∀ {fields : List CField} {frame rest : List (FrameEntry Val)}
      {env env2 : ExtractEnv Val},
      extractCrossInputs fields frame env = .ok (env2, rest) →
      ∃ used, frame = used ++ rest ∧
        List.Forall₂ crossEntryShape fields used := by
  intro fields
  induction fields with
  | nil =>
    intro frame rest env env2 h
    cases h
    exact ⟨[], by simp, List.Forall₂.nil⟩
  | cons f rest2 ih =>
    intro frame rest env env2 h
    unfold extractCrossInputs at h
    split at h
    · next path v fr =>
      obtain ⟨used, hused, hforall⟩ := ih h
      exact ⟨.cyclerStateVal v :: used, by simp [hused],
        List.Forall₂.cons ⟨v, rfl⟩ hforall⟩
    · next path mta fr =>
      obtain ⟨used, hused, hforall⟩ := ih h
      exact ⟨.historicMap mta :: used, by simp [hused],
        List.Forall₂.cons ⟨mta, rfl⟩ hforall⟩
    · next i path v fr =>
      obtain ⟨used, hused, hforall⟩ := ih h
      exact ⟨.inputVal v :: used, by simp [hused],
        List.Forall₂.cons ⟨v, rfl⟩ hforall⟩
    · next i path pm tm fr =>
      obtain ⟨used, hused, hforall⟩ := ih h
      exact ⟨.perceptionMaps pm tm :: used, by simp [hused],
        List.Forall₂.cons ⟨pm, tm, rfl⟩ hforall⟩
    · next i path v fr =>
      obtain ⟨used, hused, hforall⟩ := ih h
      exact ⟨.requiredVal v :: used, by simp [hused],
        List.Forall₂.cons ⟨v, rfl⟩ hforall⟩
    · cases h

theorem writeMainOutputsFromNodeReplay_trace {rw : ReplayWorld Val}
    {params : String → Val} {subscribed : List String} {dflt : String → Option Val}
    {acc acc2 : ReplayAcc Val} {node : CNode Val} {inv : Bool}
    (h : writeMainOutputsFromNodeReplay rw params subscribed dflt acc node = .ok (acc2, inv)) :
    acc2.trace = acc.trace ∨ acc2.trace = acc.trace ++ [.nodeCycleStarted node.name] := by
  unfold writeMainOutputsFromNodeReplay at h
  by_cases hg : requiredInputsSome rw.peerDb acc.db node = true
  · rw [if_pos hg] at h
    cases hrun : node.run (acc.states node.name)
        (node.cycleContext.map (resolveReplayField rw params subscribed acc.env acc.db)) with
    | error e => rw [hrun] at h; cases h
    | ok res =>
      rw [hrun] at h
      obtain ⟨st, outs, cs⟩ := res
      cases h
      exact Or.inr rfl
  · rw [if_neg hg] at h
    cases h
    exact Or.inl rfl

theorem replayCycleNodes_shape {rw : ReplayWorld Val} {params : String → Val}
    {subscribed : List String} {dflt : String → Option Val} :
    ∀ {nodes : List (CNode Val)} {acc acc2 : ReplayAcc Val}
      {frame rest : List (FrameEntry Val)},
      replayCycleNodes rw params subscribed dflt nodes acc frame = .ok (acc2, rest) →
      (∃ tΔ, acc2.trace = acc.trace ++ tΔ ∧
        ∀ e ∈ tΔ, ∃ nd ∈ nodes, e = CEvent.nodeCycleStarted nd.name) ∧
      (∃ used, frame = used ++ rest ∧
        List.Forall₂ (fun (_nd : CNode Val) e => ∃ s, e = FrameEntry.nodeState s)
          nodes used) := by
  intro nodes
  induction nodes with
  | nil =>
    intro acc acc2 frame rest h
    cases h
    exact ⟨⟨[], by simp, by simp⟩, ⟨[], by simp, by simp⟩⟩
  | cons nd rest2 ih =>
    intro acc acc2 frame rest h
    unfold replayCycleNodes at h
    split at h
    · cases h
    · next states1 frame1 hrestore =>
      split at h
      · cases h
      · next acc1 inv hw =>
        obtain ⟨⟨tΔ, htΔ, htmem⟩, ⟨used, hused, hforall⟩⟩ := ih h
        have hrs : ∃ s fr, frame = FrameEntry.nodeState s :: fr ∧ frame1 = fr := by
          unfold restoreNodeState at hrestore
          cases frame with
          | nil => cases hrestore
          | cons e fr =>
            cases e with
            | nodeState s =>
              injection hrestore with h2
              exact ⟨s, fr, rfl, (congrArg Prod.snd h2).symm⟩
            | output v => cases hrestore
            | cyclerStateVal v => cases hrestore
            | historicMap mta => cases hrestore
            | inputVal v => cases hrestore
            | requiredVal v => cases hrestore
            | perceptionMaps pm tm => cases hrestore
        obtain ⟨s, fr, hfr, hfr1⟩ := hrs
        have hfr2 : frame = FrameEntry.nodeState s :: used ++ rest := by
          rw [hfr, ← hfr1, hused, List.cons_append]
        rcases writeMainOutputsFromNodeReplay_trace hw with h1 | h1
        · constructor
          · refine ⟨tΔ, ?_, ?_⟩
            · rw [htΔ, h1]
            · intro e he
              obtain ⟨nd2, hnd2, he2⟩ := htmem e he
              exact ⟨nd2, List.mem_cons_of_mem _ hnd2, he2⟩
          · exact ⟨.nodeState s :: used, by simpa using hfr2,
              List.Forall₂.cons ⟨s, rfl⟩ hforall⟩
        · constructor
          · refine ⟨.nodeCycleStarted nd.name :: tΔ, ?_, ?_⟩
            · rw [htΔ, h1]
              simp
            · intro e he
              rcases List.mem_cons.mp he with he | he
              · exact ⟨nd, List.mem_cons_self _ _, he⟩
              · obtain ⟨nd2, hnd2, he2⟩ := htmem e he
                exact ⟨nd2, List.mem_cons_of_mem _ hnd2, he2⟩
          · exact ⟨.nodeState s :: used, by simpa using hfr2,
              List.Forall₂.cons ⟨s, rfl⟩ hforall⟩

/-! ### C8: Replay mode -/

/-- No framework hand-off call after the setup block is a hardware call or
a node invocation. -/
theorem handoffEvents_flags {kind : CyclerKind} {insts : List String} {now : Nat} :
    ∀ e ∈ (handoffEvents kind insts now : List (CEvent Val)),
      isHardwareEvent e = false ∧ isNodeCycleEvent e = false := by
  intro e he
  cases kind with
  | Perception =>
    simp only [handoffEvents, List.mem_singleton] at he
    subst he
    exact ⟨rfl, rfl⟩
  | RealTime =>
    simp only [handoffEvents, List.mem_append, List.mem_map,
      List.mem_singleton] at he
    rcases he with ⟨i, _, rfl⟩ | rfl
    · exact ⟨rfl, rfl⟩
    · exact ⟨rfl, rfl⟩

/-- No reader-locking call in the cycle block is a hardware call or a node
invocation. -/
theorem readerLockEvents_flags {kind : CyclerKind} {insts : List String} :
    ∀ e ∈ (readerLockEvents kind insts : List (CEvent Val)),
      isHardwareEvent e = false ∧ isNodeCycleEvent e = false := by
  intro e he
  cases kind with
  | Perception =>
    simp only [readerLockEvents, List.mem_map] at he
    rcases he with ⟨i, _, rfl⟩
    exact ⟨rfl, rfl⟩
  | RealTime =>
    simp only [readerLockEvents, List.not_mem_nil] at he

/-- No post-processing call is a hardware call or a node invocation. -/
theorem postProcessingEvents_flags {kind : CyclerKind} {now : Nat}
    {horizon : Option Nat} {db : String → Option Val} :
    ∀ e ∈ postProcessingEvents kind now horizon db,
      isHardwareEvent e = false ∧ isNodeCycleEvent e = false := by
  intro e he
  cases kind with
  | Perception =>
    simp only [postProcessingEvents, List.mem_singleton] at he
    subst he
    exact ⟨rfl, rfl⟩
  | RealTime =>
    simp only [postProcessingEvents, List.mem_singleton] at he
    subst he
    exact ⟨rfl, rfl⟩

/-- **C8** (amended): in Replay mode the generated cycler has no `start`
method — its public `cycle` method is driven externally and consumes
exactly one stored frame per call — the replayed iteration makes no
hardware call, every node it invokes is a *cycle* node (setup nodes are
not re-run: their main outputs are written directly from the frame), and
the frame's fields are deserialized in the fixed recording order: each
setup node's main outputs, then the cross inputs, then one persisted
state per cycle node. -/
theorem replay_mode_spec {cy : CCycler Val} {inst : TopologyInstances}
    {dflt : String → Option Val} {m : CyclerMachine Val} {rw : ReplayWorld Val}
    {now : Nat} {frame : List (FrameEntry Val)}
    {m2 : CyclerMachine Val} {db : String → Option Val} {tr : List (CEvent Val)}
    (h : replayCycle cy inst dflt m rw now frame = .ok (m2, db, tr)) :
    hasStartMethod .replay = false ∧
    tr.filter isHardwareEvent = [] ∧
    (∀ e ∈ tr, isNodeCycleEvent e = true →
      ∃ nd ∈ cy.cycleNodes, e = CEvent.nodeCycleStarted nd.name) ∧
    (∃ used1 used2 used3 rest,
      frame = used1 ++ (used2 ++ (used3 ++ rest)) ∧
      List.Forall₂ (fun (_nm : String) e => ∃ v, e = FrameEntry.output v)
        (cy.setupNodes.flatMap fun nd => nd.mainOutputs) used1 ∧
      List.Forall₂ crossEntryShape (get_cross_inputs cy) used2 ∧
      List.Forall₂ (fun (_nd : CNode Val) e => ∃ s, e = FrameEntry.nodeState s)
        cy.cycleNodes used3) := by
  obtain ⟨db1, frame1, env1, frame2, acc1, frameRest,
    hsetup, hextract, hcycle, hdb, hm2, htr⟩ := replayCycle_ok_elim h
  obtain ⟨⟨tΔ, htΔ, htmem⟩, used3, hused3, hforall3⟩ := replayCycleNodes_shape hcycle
  obtain ⟨used1, hused1, hforall1⟩ := replaySetupNodes_consume hsetup
  obtain ⟨used2, hused2, hforall2⟩ := extractCrossInputs_consume hextract
  have hflags : ∀ e ∈ tr, isHardwareEvent e = false ∧
      (isNodeCycleEvent e = true →
        ∃ nd ∈ cy.cycleNodes, e = CEvent.nodeCycleStarted nd.name) := by
    intro e he
    rw [htr] at he
    rcases List.mem_append.mp he with he | he
    swap
    · rcases List.mem_cons.mp he with rfl | he
      · exact ⟨rfl, fun hc => (Bool.noConfusion hc : _)⟩
      · exact absurd he (List.not_mem_nil e)
    rcases List.mem_append.mp he with he | he
    swap
    · obtain ⟨h1, h2⟩ := postProcessingEvents_flags e he
      exact ⟨h1, fun hc => (bool_eq_tf hc h2).elim⟩
    rw [htΔ] at he
    rcases List.mem_append.mp he with he | he
    swap
    · obtain ⟨nd, hnd, rfl⟩ := htmem e he
      exact ⟨rfl, fun _ => ⟨nd, hnd, rfl⟩⟩
    dsimp only [] at he
    rcases List.mem_append.mp he with he | he
    swap
    · obtain ⟨h1, h2⟩ := readerLockEvents_flags e he
      exact ⟨h1, fun hc => (bool_eq_tf hc h2).elim⟩
    rcases List.mem_append.mp he with he | he
    swap
    · rcases List.mem_cons.mp he with rfl | he
      · exact ⟨rfl, fun hc => (Bool.noConfusion hc : _)⟩
      rcases List.mem_cons.mp he with rfl | he
      · exact ⟨rfl, fun hc => (Bool.noConfusion hc : _)⟩
      · exact absurd he (List.not_mem_nil e)
    rcases List.mem_append.mp he with he | he
    swap
    · obtain ⟨h1, h2⟩ := handoffEvents_flags e he
      exact ⟨h1, fun hc => (bool_eq_tf hc h2).elim⟩
    rcases List.mem_cons.mp he with rfl | he
    · exact ⟨rfl, fun hc => (Bool.noConfusion hc : _)⟩
    rcases List.mem_cons.mp he with rfl | he
    · exact ⟨rfl, fun hc => (Bool.noConfusion hc : _)⟩
    · exact absurd he (List.not_mem_nil e)
  refine ⟨rfl, ?_, fun e he hc => (hflags e he).2 hc,
    used1, used2, used3, frameRest, ?_, hforall1, hforall2, hforall3⟩
  · exact List.filter_eq_nil_iff.mpr
      fun e he hc => bool_eq_tf hc (hflags e he).1
  · rw [hused1, hused2, hused3]

/-! C8 witness and counterexample topology: one RealTime cycler whose
single setup node would write `42` to its main output `a`, replayed on a
frame whose recorded value for `a` is `7`. -/

def c8setup : CNode Nat :=
  { name := "setup", cycleContext := [], mainOutputs := ["a"],
    run := fun st _ctx =>
      .ok (st, (fun q => if q = "a" then some 42 else none), fun _p => 0) }

def c8cy : CCycler Nat :=
  { kind := .RealTime, setupNodes := [c8setup], cycleNodes := [] }

def c8m : CyclerMachine Nat :=
  { cycler_state := fun _p => 0, node_states := fun _n => 0,
    buf_a := fun _q => none, buf_b := fun _q => none,
    enable_recording := false }

def c8rw : ReplayWorld Nat :=
  { paramsAt := fun _i _q => 0, subscribedAt := fun _i => [],
    shouldBeFilled := fun _i _q => false, peerDb := fun _i _q => none,
    firstTemporaryTimestamp := none }

def c8frame : List (FrameEntry Nat) := [FrameEntry.output (some 7)]

def c8m2 : CyclerMachine Nat :=
  match replayCycle c8cy witInst witDflt c8m c8rw 5 c8frame with
  | .ok (mm, _, _) => mm
  | .error _ => c8m

def c8db : String → Option Nat :=
  match replayCycle c8cy witInst witDflt c8m c8rw 5 c8frame with
  | .ok (_, dd, _) => dd
  | .error _ => fun _q => none

def c8tr : List (CEvent Nat) :=
  match replayCycle c8cy witInst witDflt c8m c8rw 5 c8frame with
  | .ok (_, _, tt) => tt
  | .error _ => []

/-- Witness for `replay_mode_spec` on the concrete one-setup-node replay. -/
theorem replay_mode_spec_witness :
    hasStartMethod .replay = false ∧
    c8tr.filter isHardwareEvent = [] ∧
    (∀ e ∈ c8tr, isNodeCycleEvent e = true →
      ∃ nd ∈ c8cy.cycleNodes, e = CEvent.nodeCycleStarted nd.name) ∧
    (∃ used1 used2 used3 rest,
      c8frame = used1 ++ (used2 ++ (used3 ++ rest)) ∧
      List.Forall₂ (fun (_nm : String) e => ∃ v, e = FrameEntry.output v)
        (c8cy.setupNodes.flatMap fun nd => nd.mainOutputs) used1 ∧
      List.Forall₂ crossEntryShape (get_cross_inputs c8cy) used2 ∧
      List.Forall₂ (fun (_nd : CNode Nat) e => ∃ s, e = FrameEntry.nodeState s)
        c8cy.cycleNodes used3) :=
  replay_mode_spec (m := c8m) (show replayCycle c8cy witInst witDflt c8m c8rw 5 c8frame
    = .ok (c8m2, c8db, c8tr) from rfl)

/-- C8 counterexample to "re-runs the identical Setup/Cycle node logic":
replaying a frame that records `7` for the setup node's output `a` writes
`7` straight from the frame — the setup node's cycle function, which would
produce `42`, is never invoked (no node-invocation event at all). -/
theorem replay_mode_counterexample :
    ∃ res, replayCycle c8cy witInst witDflt c8m c8rw 5 c8frame = .ok res ∧
      res.2.1 "a" = some 7 ∧ res.2.1 "a" ≠ some 42 ∧
      res.2.2.countP isNodeCycleEvent = 0 :=
  ⟨_, rfl, rfl, by decide, rfl⟩

/-! ### C3: record/replay round-trip machinery -/

/-- Full inversion of the Run-mode gated node-execution block. -/
theorem writeMainOutputsFromNode_elim {w : RunWorld Val} {params : String → Val}
    {subscribed : List String} {dflt : String → Option Val}
    {acc acc2 : RunAcc Val} {node : CNode Val} {inv : Bool}
    (h : writeMainOutputsFromNode w params subscribed dflt acc node = .ok (acc2, inv)) :
    acc2.frame = acc.frame ∧
    (inv = false →
      requiredInputsSome w.peerDb acc.db node = false ∧
      acc2.db = (fun p => if p ∈ node.mainOutputs then dflt p else acc.db p) ∧
      acc2.cs = acc.cs ∧ acc2.states = acc.states) ∧
    (inv = true →
      requiredInputsSome w.peerDb acc.db node = true ∧
      ∃ st outs cs2,
        node.run (acc.states node.name)
          (node.cycleContext.map (resolveRunField w params subscribed acc.cs acc.db))
          = .ok (st, outs, cs2) ∧
        acc2.db = (fun p => if p ∈ node.mainOutputs then outs p else acc.db p) ∧
        acc2.cs = (fun p =>
          if CField.cyclerState p ∈ node.cycleContext then cs2 p else acc.cs p) ∧
        acc2.states = (fun n => if n = node.name then st else acc.states n)) := by
  unfold writeMainOutputsFromNode at h
  by_cases hg : requiredInputsSome w.peerDb acc.db node = true
  · rw [if_pos hg] at h
    cases hrun : node.run (acc.states node.name)
        (node.cycleContext.map (resolveRunField w params subscribed acc.cs acc.db)) with
    | error e => rw [hrun] at h; cases h
    | ok res =>
      rw [hrun] at h
      obtain ⟨st, outs, cs2⟩ := res
      cases h
      exact ⟨rfl, fun hc => (Bool.noConfusion hc : _),
        fun _ => ⟨hg, st, outs, cs2, rfl, rfl, rfl, rfl⟩⟩
  · have hg' : requiredInputsSome w.peerDb acc.db node = false :=
      (Bool.not_eq_true _) ▸ hg
    rw [if_neg hg] at h
    cases h
    exact ⟨rfl, fun _ => ⟨hg', rfl, rfl, rfl⟩,
      fun hc => (Bool.noConfusion hc : _)⟩

/-- The required-input gate only looks at the database through `isSome` of
the probed paths, so pointwise-equal databases gate identically. -/
theorem requiredInputsSome_congr {peer : String → String → Option Val}
    {db1 db2 : String → Option Val} {node : CNode Val}
    (hdb : ∀ p, db1 p = db2 p) :
    requiredInputsSome peer db1 node = requiredInputsSome peer db2 node := by
  unfold requiredInputsSome
  induction node.cycleContext with
  | nil => rfl
  | cons f rest ih =>
    rw [List.all_cons, List.all_cons, ih]
    congr 1
    cases f with
    | additionalOutput path => rfl
    | cyclerState path => rfl
    | hardwareInterface => rfl
    | historicInput path => rfl
    | input o path => rfl
    | parameter path => rfl
    | perceptionInput i path => rfl
    | requiredInput o path =>
      cases o with
      | none =>
        show (db1 path).isSome = (db2 path).isSome
        rw [hdb path]
      | some i => rfl

/-- Context-resolution correspondence for one cycle-context field: against
a pointwise-equal own database, the extraction environment produced from
the recorded cross inputs, and an unchanged world, Replay resolution
coincides with Run resolution — provided the field, if it reads the
historic timeline, reads a path whose own-database value still equals the
recorded one. -/
theorem resolveReplayField_eq_run {w : RunWorld Val} {rw : ReplayWorld Val}
    {cy : CCycler Val} {params : String → Val} {subscribed : List String}
    {env : ExtractEnv Val} {dbR dbRun dbRec : String → Option Val}
    {cs : String → Val}
    (hfill : rw.shouldBeFilled = w.shouldBeFilled)
    (hdb : ∀ p, dbR p = dbRun p)
    (hcs : ∀ p, CField.cyclerState p ∈ get_cross_inputs cy → env.csVars p = cs p)
    (hfvH : ∀ path, CField.historicInput path ∈ get_cross_inputs cy →
      env.fixedVars (.historicInput path)
        = FrameEntry.historicMap
            ((w.now, dbRec path) :: w.historic.map fun td => (td.1, td.2 path)))
    (hfvI : ∀ i path, CField.input (some i) path ∈ get_cross_inputs cy →
      env.fixedVars (.input (some i) path) = FrameEntry.inputVal (w.peerDb i path))
    (hfvP : ∀ i path, CField.perceptionInput i path ∈ get_cross_inputs cy →
      env.fixedVars (.perceptionInput i path)
        = FrameEntry.perceptionMaps
            (w.percPersistent.map fun td => (td.1, (td.2 i).map fun d => d path))
            (w.percTemporary.map fun td => (td.1, (td.2 i).map fun d => d path)))
    (hfvR : ∀ i path, CField.requiredInput (some i) path ∈ get_cross_inputs cy →
      ∃ v, w.peerDb i path = some v ∧
        env.fixedVars (.requiredInput (some i) path) = FrameEntry.requiredVal v)
    {f : CField}
    (hfmem : isCrossInput f = true → f ∈ get_cross_inputs cy)
    (hhist : ∀ path, f = CField.historicInput path → dbRun path = dbRec path) :
    resolveReplayField rw params subscribed env dbR f
      = resolveRunField w params subscribed cs dbRun f := by
  cases f with
  | additionalOutput path =>
    simp only [resolveReplayField, resolveRunField, hfill]
  | cyclerState path =>
    simp only [resolveReplayField, resolveRunField, hcs path (hfmem rfl)]
  | hardwareInterface => rfl
  | historicInput path =>
    simp only [resolveReplayField, resolveRunField, hfvH path (hfmem rfl),
      hhist path rfl]
  | input o path =>
    cases o with
    | none => simp only [resolveReplayField, resolveRunField, hdb path]
    | some i => simp only [resolveReplayField, resolveRunField, hfvI i path (hfmem rfl)]
  | parameter path => rfl
  | perceptionInput i path =>
    simp only [resolveReplayField, resolveRunField, hfvP i path (hfmem rfl)]
  | requiredInput o path =>
    cases o with
    | none => simp only [resolveReplayField, resolveRunField, hdb path]
    | some i =>
      obtain ⟨v, hv, hfx⟩ := hfvR i path (hfmem rfl)
      simp only [resolveReplayField, resolveRunField, hfx, hv, Option.getD_some]

/-- Writing main outputs from frame entries that record `dbGood`'s values
produces exactly `dbGood` on the written names and leaves the rest. -/
theorem writeMainOutputsFromFrame_write (dbGood : String → Option Val) :
    ∀ (names : List String) (dbR : String → Option Val)
      (tail : List (FrameEntry Val)),
      ∃ db2, writeMainOutputsFromFrame names dbR
          ((names.map fun nm => FrameEntry.output (dbGood nm)) ++ tail)
          = .ok (db2, tail) ∧
        ∀ p, db2 p = if p ∈ names then dbGood p else dbR p := by
  intro names
  induction names with
  | nil =>
    intro dbR tail
    exact ⟨dbR, rfl, fun p => by simp⟩
  | cons nm rest ih =>
    intro dbR tail
    obtain ⟨db2, h2, hp⟩ := ih (fun p => if p = nm then dbGood nm else dbR p) tail
    refine ⟨db2, ?_, ?_⟩
    · simp only [List.map_cons, List.cons_append]
      exact h2
    · intro p
      rw [hp p]
      by_cases hr : p ∈ rest
      · simp [hr, List.mem_cons]
      · by_cases hn : p = nm
        · subst hn
          simp [hr]
        · simp [hr, hn]

/-- Setup-phase round-trip: replaying the frame segment recorded by a
successful Run-mode setup phase (recording on) reproduces the Run-mode
post-setup database exactly, consuming exactly that segment. -/
theorem replaySetupNodes_roundtrip {w : RunWorld Val} {params : String → Val}
    {subscribed : List String} {dflt : String → Option Val} :
    ∀ {nodes : List (CNode Val)} {acc acc1 : RunAcc Val},
      runSetupNodes w params subscribed dflt true nodes acc = .ok acc1 →
      ∀ {dbR : String → Option Val}, (∀ p, dbR p = acc.db p) →
      ∃ Δ, acc1.frame = acc.frame ++ Δ ∧
        ∀ tail, ∃ db2, replaySetupNodes nodes dbR (Δ ++ tail) = .ok (db2, tail) ∧
          ∀ p, db2 p = acc1.db p := by
  intro nodes
  induction nodes with
  | nil =>
    intro acc acc1 h dbR hdbR
    cases h
    exact ⟨[], by simp, fun tail => ⟨dbR, rfl, hdbR⟩⟩
  | cons nd rest ih =>
    intro acc acc1 h dbR hdbR
    unfold runSetupNodes at h
    split at h
    · cases h
    · next accA inv hw =>
      split at h
      · cases h
      · next frameB hr =>
        obtain ⟨hfrA, hfalse, htrue⟩ := writeMainOutputsFromNode_elim hw
        obtain ⟨Δ0, hΔ0, hon0, _, _⟩ := recordMainOutputs_shape hr
        have hΔ0v : Δ0 = nd.mainOutputs.map fun nm => FrameEntry.output (accA.db nm) :=
          hon0 rfl
        have hdbA : ∀ p, p ∉ nd.mainOutputs → accA.db p = acc.db p := by
          intro p hp
          cases inv with
          | false =>
            obtain ⟨_, hdb2, _, _⟩ := hfalse rfl
            rw [hdb2]
            simp [hp]
          | true =>
            obtain ⟨_, st, outs, cs2, _, hdb2, _, _⟩ := htrue rfl
            rw [hdb2]
            simp [hp]
        obtain ⟨Δr, hΔr, hrepl⟩ := ih h
          (show ∀ p, (fun q => if q ∈ nd.mainOutputs then accA.db q else dbR q) p
              = ({ accA with frame := frameB } : RunAcc Val).db p by
            intro p
            by_cases hp : p ∈ nd.mainOutputs
            · simp [hp]
            · simp only [if_neg hp]
              rw [hdbR p]
              exact (hdbA p hp).symm)
        refine ⟨Δ0 ++ Δr, ?_, ?_⟩
        · rw [hΔr]
          simp only [hΔ0, hfrA]
          simp
        · intro tail
          obtain ⟨db2a, hwf, hp2a⟩ :=
            writeMainOutputsFromFrame_write accA.db nd.mainOutputs dbR (Δr ++ tail)
          have hfix : db2a = fun q => if q ∈ nd.mainOutputs then accA.db q else dbR q :=
            funext fun p => hp2a p
          obtain ⟨db2, hrest, hfin⟩ := hrepl tail
          refine ⟨db2, ?_, hfin⟩
          show replaySetupNodes (nd :: rest) dbR ((Δ0 ++ Δr) ++ tail) = Except.ok (db2, tail)
          have harr : (Δ0 ++ Δr) ++ tail
              = (nd.mainOutputs.map fun nm => FrameEntry.output (accA.db nm)) ++ (Δr ++ tail) := by
            rw [hΔ0v, List.append_assoc]
          simp only [replaySetupNodes]
          rw [harr, hwf, hfix]
          exact hrest

/-- Extraction round-trip: running `extractCrossInputs` over the frame
segment produced by a successful cross-input recording restores, for each
recorded field, exactly the recorded value — `CyclerState` fields into the
mutable variables, all other kinds into the immutable ones — and consumes
exactly that segment. -/
theorem extractCrossInputs_of_recorded {w : RunWorld Val} {cs : String → Val}
    {dbRec : String → Option Val} :
    ∀ {fields : List CField} {Δ : List (FrameEntry Val)},
      List.Forall₂ (fun f e => crossRecordedEntry w cs dbRec f = .ok e) fields Δ →
      ∀ (env : ExtractEnv Val) (tail : List (FrameEntry Val)),
      ∃ env1, extractCrossInputs fields (Δ ++ tail) env = .ok (env1, tail) ∧
        (∀ p, CField.cyclerState p ∈ fields → env1.csVars p = cs p) ∧
        (∀ p, CField.cyclerState p ∉ fields → env1.csVars p = env.csVars p) ∧
        (∀ g, g ∈ fields → (∀ q, g ≠ CField.cyclerState q) →
          ∃ e2, crossRecordedEntry w cs dbRec g = .ok e2 ∧ env1.fixedVars g = e2) ∧
        (∀ g, g ∉ fields → env1.fixedVars g = env.fixedVars g) := by
  intro fields Δ hforall
  induction hforall with
  | nil =>
    intro env tail
    exact ⟨env, rfl, by simp, fun p _ => rfl, by simp, fun g _ => rfl⟩
  | @cons f e fields2 Δ2 hentry htail ih =>
    intro env tail
    cases f with
    | additionalOutput path => cases hentry
    | hardwareInterface => cases hentry
    | parameter path => cases hentry
    | cyclerState path =>
      cases hentry
      obtain ⟨env1, hex, hcsin, hcsout, hfvin, hfvout⟩ :=
        ih { env with csVars := fun p => if p = path then cs path else env.csVars p } tail
      refine ⟨env1, ?_, ?_, ?_, ?_, ?_⟩
      · simp only [extractCrossInputs, List.cons_append]
        exact hex
      · intro p hp
        rcases List.mem_cons.mp hp with heq | hp2
        · injection heq with hpq
          subst hpq
          by_cases hmem : CField.cyclerState p ∈ fields2
          · exact hcsin p hmem
          · rw [hcsout p hmem]
            simp
        · exact hcsin p hp2
      · intro p hp
        simp only [List.mem_cons, not_or] at hp
        rw [hcsout p hp.2]
        show (if p = path then cs path else env.csVars p) = env.csVars p
        exact if_neg fun hq => hp.1 (by rw [hq])
      · intro g hg hnotcs
        rcases List.mem_cons.mp hg with heq | hg2
        · exact absurd heq (hnotcs path)
        · exact hfvin g hg2 hnotcs
      · intro g hg
        simp only [List.mem_cons, not_or] at hg
        rw [hfvout g hg.2]
    | historicInput path =>
      cases hentry
      obtain ⟨env1, hex, hcsin, hcsout, hfvin, hfvout⟩ :=
        ih { env with fixedVars := fun g =>
          if g = CField.historicInput path then
            (FrameEntry.historicMap
              ((w.now, dbRec path) :: w.historic.map fun td => (td.1, td.2 path)))
          else env.fixedVars g } tail
      refine ⟨env1, ?_, ?_, ?_, ?_, ?_⟩
      · simp only [extractCrossInputs, List.cons_append]
        exact hex
      · intro p hp
        rcases List.mem_cons.mp hp with heq | hp2
        · cases heq
        · exact hcsin p hp2
      · intro p hp
        simp only [List.mem_cons, not_or] at hp
        rw [hcsout p hp.2]
      · intro g hg hnotcs
        rcases List.mem_cons.mp hg with heq | hg2
        · subst heq
          refine ⟨_, rfl, ?_⟩
          by_cases hmem : CField.historicInput path ∈ fields2
          · obtain ⟨e2, he2, hfx⟩ := hfvin _ hmem hnotcs
            rw [hfx]
            injection he2 with he3
            rw [← he3]
          · rw [hfvout _ hmem]
            simp
        · exact hfvin g hg2 hnotcs
      · intro g hg
        simp only [List.mem_cons, not_or] at hg
        rw [hfvout g hg.2]
        show (if g = CField.historicInput path then _ else env.fixedVars g) = env.fixedVars g
        exact if_neg hg.1
    | input o path =>
      cases o with
      | none => cases hentry
      | some i =>
        cases hentry
        obtain ⟨env1, hex, hcsin, hcsout, hfvin, hfvout⟩ :=
          ih { env with fixedVars := fun g =>
            if g = CField.input (some i) path then
              (FrameEntry.inputVal (w.peerDb i path))
            else env.fixedVars g } tail
        refine ⟨env1, ?_, ?_, ?_, ?_, ?_⟩
        · simp only [extractCrossInputs, List.cons_append]
          exact hex
        · intro p hp
          rcases List.mem_cons.mp hp with heq | hp2
          · cases heq
          · exact hcsin p hp2
        · intro p hp
          simp only [List.mem_cons, not_or] at hp
          rw [hcsout p hp.2]
        · intro g hg hnotcs
          rcases List.mem_cons.mp hg with heq | hg2
          · subst heq
            refine ⟨_, rfl, ?_⟩
            by_cases hmem : CField.input (some i) path ∈ fields2
            · obtain ⟨e2, he2, hfx⟩ := hfvin _ hmem hnotcs
              rw [hfx]
              injection he2 with he3
              rw [← he3]
            · rw [hfvout _ hmem]
              simp
          · exact hfvin g hg2 hnotcs
        · intro g hg
          simp only [List.mem_cons, not_or] at hg
          rw [hfvout g hg.2]
          show (if g = CField.input (some i) path then _ else env.fixedVars g)
            = env.fixedVars g
          exact if_neg hg.1
    | perceptionInput i path =>
      cases hentry
      obtain ⟨env1, hex, hcsin, hcsout, hfvin, hfvout⟩ :=
        ih { env with fixedVars := fun g =>
          if g = CField.perceptionInput i path then
            (FrameEntry.perceptionMaps
              (w.percPersistent.map fun td => (td.1, (td.2 i).map fun d => d path))
              (w.percTemporary.map fun td => (td.1, (td.2 i).map fun d => d path)))
          else env.fixedVars g } tail
      refine ⟨env1, ?_, ?_, ?_, ?_, ?_⟩
      · simp only [extractCrossInputs, List.cons_append]
        exact hex
      · intro p hp
        rcases List.mem_cons.mp hp with heq | hp2
        · cases heq
        · exact hcsin p hp2
      · intro p hp
        simp only [List.mem_cons, not_or] at hp
        rw [hcsout p hp.2]
      · intro g hg hnotcs
        rcases List.mem_cons.mp hg with heq | hg2
        · subst heq
          refine ⟨_, rfl, ?_⟩
          by_cases hmem : CField.perceptionInput i path ∈ fields2
          · obtain ⟨e2, he2, hfx⟩ := hfvin _ hmem hnotcs
            rw [hfx]
            injection he2 with he3
            rw [← he3]
          · rw [hfvout _ hmem]
            simp
        · exact hfvin g hg2 hnotcs
      · intro g hg
        simp only [List.mem_cons, not_or] at hg
        rw [hfvout g hg.2]
        show (if g = CField.perceptionInput i path then _ else env.fixedVars g)
          = env.fixedVars g
        exact if_neg hg.1
    | requiredInput o path =>
      cases o with
      | none => cases hentry
      | some i =>
        simp only [crossRecordedEntry] at hentry
        cases hv : w.peerDb i path with
        | none =>
          rw [hv] at hentry
          cases hentry
        | some v =>
          rw [hv] at hentry
          cases hentry
          obtain ⟨env1, hex, hcsin, hcsout, hfvin, hfvout⟩ :=
            ih { env with fixedVars := fun g =>
              if g = CField.requiredInput (some i) path then
                (FrameEntry.requiredVal v)
              else env.fixedVars g } tail
          refine ⟨env1, ?_, ?_, ?_, ?_, ?_⟩
          · simp only [extractCrossInputs, List.cons_append]
            exact hex
          · intro p hp
            rcases List.mem_cons.mp hp with heq | hp2
            · cases heq
            · exact hcsin p hp2
          · intro p hp
            simp only [List.mem_cons, not_or] at hp
            rw [hcsout p hp.2]
          · intro g hg hnotcs
            rcases List.mem_cons.mp hg with heq | hg2
            · subst heq
              refine ⟨FrameEntry.requiredVal v, ?_, ?_⟩
              · show crossRecordedEntry w cs dbRec (CField.requiredInput (some i) path)
                  = Except.ok (FrameEntry.requiredVal v)
                simp only [crossRecordedEntry]
                rw [hv]
              · by_cases hmem : CField.requiredInput (some i) path ∈ fields2
                · obtain ⟨e2, he2, hfx⟩ := hfvin _ hmem hnotcs
                  rw [hfx]
                  have he2v : crossRecordedEntry w cs dbRec
                      (CField.requiredInput (some i) path)
                      = Except.ok (FrameEntry.requiredVal v) := by
                    simp only [crossRecordedEntry]
                    rw [hv]
                  rw [he2v] at he2
                  injection he2 with he3
                  rw [← he3]
                · rw [hfvout _ hmem]
                  simp
            · exact hfvin g hg2 hnotcs
          · intro g hg
            simp only [List.mem_cons, not_or] at hg
            rw [hfvout g hg.2]
            show (if g = CField.requiredInput (some i) path then _ else env.fixedVars g)
              = env.fixedVars g
            exact if_neg hg.1

/-- A cross-boundary field of a cycle node is collected by
`get_cross_inputs`. -/
theorem mem_get_cross_inputs {cy : CCycler Val} {nd : CNode Val} {f : CField}
    (hnd : nd ∈ cy.cycleNodes) (hf : f ∈ nd.cycleContext)
    (hc : isCrossInput f = true) :
    f ∈ get_cross_inputs cy := by
  unfold get_cross_inputs
  rw [List.mem_dedup, List.mem_flatMap]
  exact ⟨nd, List.mem_append_right _ hnd, List.mem_filter.mpr ⟨hf, hc⟩⟩

/-- Replay node block, gate closed: defaults are written, nothing else
changes. -/
theorem writeMainOutputsFromNodeReplay_false {rw : ReplayWorld Val}
    (params : String → Val) (subscribed : List String) (dflt : String → Option Val)
    {accR : ReplayAcc Val} {node : CNode Val}
    (hg : requiredInputsSome rw.peerDb accR.db node = false) :
    writeMainOutputsFromNodeReplay rw params subscribed dflt accR node
      = .ok ({ accR with
          db := fun p => if p ∈ node.mainOutputs then dflt p else accR.db p }, false) := by
  unfold writeMainOutputsFromNodeReplay
  rw [hg]
  simp

/-- Replay node block, gate open and node succeeding: the node's results
are applied exactly as in Run mode. -/
theorem writeMainOutputsFromNodeReplay_true {rw : ReplayWorld Val}
    (params : String → Val) (subscribed : List String) (dflt : String → Option Val)
    {accR : ReplayAcc Val} {node : CNode Val} {st : Val}
    {outs : String → Option Val} {cs2 : String → Val}
    (hg : requiredInputsSome rw.peerDb accR.db node = true)
    (hrun : node.run (accR.states node.name)
        (node.cycleContext.map (resolveReplayField rw params subscribed accR.env accR.db))
        = .ok (st, outs, cs2)) :
    writeMainOutputsFromNodeReplay rw params subscribed dflt accR node
      = .ok ({ accR with
          env := { accR.env with
            csVars := fun p =>
              if CField.cyclerState p ∈ node.cycleContext then cs2 p
              else accR.env.csVars p },
          states := fun n => if n = node.name then st else accR.states n,
          db := fun p => if p ∈ node.mainOutputs then outs p else accR.db p,
          trace := accR.trace ++ [.nodeCycleStarted node.name] }, true) := by
  unfold writeMainOutputsFromNodeReplay
  rw [hg, hrun]
  simp

/-- Cycle-node phase round-trip: replaying the frame segment recorded by a
successful Run-mode cycle-node phase (recording on), from a
pointwise-equal own database and the extraction environment restored from
the recorded cross inputs, reproduces the Run-mode database exactly —
provided no node reads, through a `HistoricInput`, a path written by an
earlier cycle node of the same iteration. -/
theorem replayCycleNodes_roundtrip {w : RunWorld Val} {rw : ReplayWorld Val}
    {cy : CCycler Val} {params : String → Val} {subscribed : List String}
    {dflt : String → Option Val} {dbRec : String → Option Val}
    (hfill : rw.shouldBeFilled = w.shouldBeFilled)
    (hpeer : rw.peerDb = w.peerDb) :
    ∀ {nodes : List (CNode Val)} {acc acc3 : RunAcc Val} {accR : ReplayAcc Val},
      runCycleNodes w params subscribed dflt true nodes acc = .ok acc3 →
      (∀ nd ∈ nodes, nd ∈ cy.cycleNodes) →
      List.Pairwise (fun a b => ∀ p, CField.historicInput p ∈ b.cycleContext →
        p ∉ a.mainOutputs) nodes →
      (∀ p, accR.db p = acc.db p) →
      (∀ p, CField.cyclerState p ∈ get_cross_inputs cy →
        accR.env.csVars p = acc.cs p) →
      (∀ path, CField.historicInput path ∈ get_cross_inputs cy →
        accR.env.fixedVars (.historicInput path)
          = FrameEntry.historicMap
              ((w.now, dbRec path) :: w.historic.map fun td => (td.1, td.2 path))) →
      (∀ i path, CField.input (some i) path ∈ get_cross_inputs cy →
        accR.env.fixedVars (.input (some i) path)
          = FrameEntry.inputVal (w.peerDb i path)) →
      (∀ i path, CField.perceptionInput i path ∈ get_cross_inputs cy →
        accR.env.fixedVars (.perceptionInput i path)
          = FrameEntry.perceptionMaps
              (w.percPersistent.map fun td => (td.1, (td.2 i).map fun d => d path))
              (w.percTemporary.map fun td => (td.1, (td.2 i).map fun d => d path))) →
      (∀ i path, CField.requiredInput (some i) path ∈ get_cross_inputs cy →
        ∃ v, w.peerDb i path = some v ∧
          accR.env.fixedVars (.requiredInput (some i) path)
            = FrameEntry.requiredVal v) →
      (∀ nd ∈ nodes, ∀ p, CField.historicInput p ∈ nd.cycleContext →
        acc.db p = dbRec p) →
      ∃ Δ, acc3.frame = acc.frame ++ Δ ∧
        ∀ tail, ∃ accR3,
          replayCycleNodes rw params subscribed dflt nodes accR (Δ ++ tail)
            = .ok (accR3, tail) ∧
          (∀ p, accR3.db p = acc3.db p) := by
  intro nodes
  induction nodes with
  | nil =>
    intro acc acc3 accR h _ _ hdb _ _ _ _ _ _
    cases h
    exact ⟨[], by simp, fun tail => ⟨accR, rfl, hdb⟩⟩
  | cons nd rest ih =>
    intro acc acc3 accR h hmem hpw hdb hcs hfvH hfvI hfvP hfvR hhist
    unfold runCycleNodes at h
    split at h
    · cases h
    · next frameA hrec =>
      split at h
      · cases h
      · next accA inv hw =>
        have hfrA : frameA
            = acc.frame ++ [FrameEntry.nodeState (acc.states nd.name)] :=
          ((recordNodeState_shape hrec).1 rfl).1
        obtain ⟨hfrA2, hfalse, htrue⟩ := writeMainOutputsFromNode_elim hw
        have hmemrest : ∀ nd2 ∈ rest, nd2 ∈ cy.cycleNodes :=
          fun nd2 h2 => hmem nd2 (List.mem_cons_of_mem _ h2)
        have hpwhead : ∀ b ∈ rest, ∀ p, CField.historicInput p ∈ b.cycleContext →
            p ∉ nd.mainOutputs := (List.pairwise_cons.mp hpw).1
        cases inv with
        | false =>
          obtain ⟨hg, hdbA, hcsA, hstA⟩ := hfalse rfl
          have hgR : requiredInputsSome rw.peerDb
              ({ accR with states := fun n =>
                if n = nd.name then acc.states nd.name else accR.states n }
                : ReplayAcc Val).db nd = false := by
            show requiredInputsSome rw.peerDb accR.db nd = false
            rw [hpeer, requiredInputsSome_congr hdb]
            exact hg
          have hwR := writeMainOutputsFromNodeReplay_false params subscribed dflt hgR
          obtain ⟨Δr, hΔr, hreplr⟩ := @ih accA acc3
            { env := accR.env,
              states := fun n =>
                if n = nd.name then acc.states nd.name else accR.states n,
              db := fun p =>
                if p ∈ nd.mainOutputs then dflt p else accR.db p,
              trace := accR.trace }
            h hmemrest hpw.of_cons
            (by
              intro p
              rw [hdbA]
              by_cases hp : p ∈ nd.mainOutputs
              · simp [hp]
              · simp [hp, hdb p])
            (by
              intro p hp
              rw [hcsA]
              exact hcs p hp)
            (by
              intro path hp
              exact hfvH path hp)
            (by
              intro i path hp
              exact hfvI i path hp)
            (by
              intro i path hp
              exact hfvP i path hp)
            (by
              intro i path hp
              exact hfvR i path hp)
            (by
              intro nd2 h2 p hp
              rw [hdbA]
              show (if p ∈ nd.mainOutputs then dflt p else acc.db p) = dbRec p
              rw [if_neg (hpwhead nd2 h2 p hp)]
              exact hhist nd2 (List.mem_cons_of_mem _ h2) p hp)
          refine ⟨FrameEntry.nodeState (acc.states nd.name) :: Δr, ?_, ?_⟩
          · rw [hΔr]
            have hfrA3 : accA.frame = frameA := hfrA2
            rw [hfrA3, hfrA]
            simp
          · intro tail
            obtain ⟨accR3, hstep, hfin⟩ := hreplr tail
            refine ⟨accR3, ?_, hfin⟩
            show replayCycleNodes rw params subscribed dflt (nd :: rest) accR
              ((FrameEntry.nodeState (acc.states nd.name) :: Δr) ++ tail)
              = Except.ok (accR3, tail)
            simp only [List.cons_append, replayCycleNodes, restoreNodeState]
            rw [hwR]
            exact hstep
        | true =>
          obtain ⟨hg, st, outs, cs2, hrun, hdbA, hcsA, hstA⟩ := htrue rfl
          have hgR : requiredInputsSome rw.peerDb
              ({ accR with states := fun n =>
                if n = nd.name then acc.states nd.name else accR.states n }
                : ReplayAcc Val).db nd = true := by
            show requiredInputsSome rw.peerDb accR.db nd = true
            rw [hpeer, requiredInputsSome_congr hdb]
            exact hg
          have hctx : nd.cycleContext.map
              (resolveReplayField rw params subscribed accR.env accR.db)
              = nd.cycleContext.map (resolveRunField w params subscribed acc.cs acc.db) :=
            List.map_congr_left fun f hf =>
              resolveReplayField_eq_run hfill hdb hcs hfvH hfvI hfvP hfvR
                (fun hcif =>
                  mem_get_cross_inputs (hmem nd (List.mem_cons_self _ _)) hf hcif)
                (fun path hfeq =>
                  hhist nd (List.mem_cons_self _ _) path (hfeq ▸ hf))
          have hrunR : nd.run
              (({ accR with states := fun n =>
                if n = nd.name then acc.states nd.name else accR.states n }
                : ReplayAcc Val).states nd.name)
              (nd.cycleContext.map (resolveReplayField rw params subscribed
                ({ accR with states := fun n =>
                  if n = nd.name then acc.states nd.name else accR.states n }
                  : ReplayAcc Val).env
                ({ accR with states := fun n =>
                  if n = nd.name then acc.states nd.name else accR.states n }
                  : ReplayAcc Val).db))
              = .ok (st, outs, cs2) := by
            show nd.run ((fun n =>
                if n = nd.name then acc.states nd.name else accR.states n) nd.name)
              (nd.cycleContext.map
                (resolveReplayField rw params subscribed accR.env accR.db))
              = .ok (st, outs, cs2)
            rw [hctx]
            simp only [if_pos rfl]
            exact hrun
          have hwR := writeMainOutputsFromNodeReplay_true params subscribed dflt hgR hrunR
          obtain ⟨Δr, hΔr, hreplr⟩ := @ih accA acc3
            { env :=
                { csVars := fun p =>
                    (if CField.cyclerState p ∈ nd.cycleContext then cs2 p
                      else accR.env.csVars p),
                  fixedVars := accR.env.fixedVars },
              states := fun n =>
                if n = nd.name then st
                else (if n = nd.name then acc.states nd.name else accR.states n),
              db := fun p =>
                if p ∈ nd.mainOutputs then outs p else accR.db p,
              trace := accR.trace ++ [.nodeCycleStarted nd.name] }
            h hmemrest hpw.of_cons
            (by
              intro p
              rw [hdbA]
              by_cases hp : p ∈ nd.mainOutputs
              · simp [hp]
              · simp [hp, hdb p])
            (by
              intro p hp
              rw [hcsA]
              show (if CField.cyclerState p ∈ nd.cycleContext then cs2 p
                else accR.env.csVars p)
                = if CField.cyclerState p ∈ nd.cycleContext then cs2 p else acc.cs p
              by_cases hpc : CField.cyclerState p ∈ nd.cycleContext
              · simp [hpc]
              · simp [hpc, hcs p hp])
            (by
              intro path hp
              exact hfvH path hp)
            (by
              intro i path hp
              exact hfvI i path hp)
            (by
              intro i path hp
              exact hfvP i path hp)
            (by
              intro i path hp
              exact hfvR i path hp)
            (by
              intro nd2 h2 p hp
              rw [hdbA]
              show (if p ∈ nd.mainOutputs then outs p else acc.db p) = dbRec p
              rw [if_neg (hpwhead nd2 h2 p hp)]
              exact hhist nd2 (List.mem_cons_of_mem _ h2) p hp)
          refine ⟨FrameEntry.nodeState (acc.states nd.name) :: Δr, ?_, ?_⟩
          · rw [hΔr]
            have hfrA3 : accA.frame = frameA := hfrA2
            rw [hfrA3, hfrA]
            simp
          · intro tail
            obtain ⟨accR3, hstep, hfin⟩ := hreplr tail
            refine ⟨accR3, ?_, hfin⟩
            show replayCycleNodes rw params subscribed dflt (nd :: rest) accR
              ((FrameEntry.nodeState (acc.states nd.name) :: Δr) ++ tail)
              = Except.ok (accR3, tail)
            simp only [List.cons_append, replayCycleNodes, restoreNodeState]
            rw [hwR]
            exact hstep

/-- Forward composition of a Replay-mode cycle from its three phases. -/
theorem replayCycle_intro {cy : CCycler Val} {inst : TopologyInstances}
    {dflt : String → Option Val} {m : CyclerMachine Val} {rw : ReplayWorld Val}
    {now : Nat} {frame : List (FrameEntry Val)}
    {db1 : String → Option Val} {frame1 frame2 frameRest : List (FrameEntry Val)}
    {env1 : ExtractEnv Val} {accRes : ReplayAcc Val}
    (h1 : replaySetupNodes cy.setupNodes m.buf_a frame = .ok (db1, frame1))
    (h2 : extractCrossInputs (get_cross_inputs cy) frame1
      { csVars := fun _p => default, fixedVars := fun _g => FrameEntry.nodeState default }
      = .ok (env1, frame2))
    (h3 : replayCycleNodes rw (rw.paramsAt 1) (rw.subscribedAt 1) dflt cy.cycleNodes
      { env := env1, states := m.node_states, db := db1,
        trace := [.subscribedRead 0, .paramsRead 0]
          ++ handoffEvents cy.kind inst.perception now
          ++ [.subscribedRead 1, .paramsRead 1]
          ++ readerLockEvents cy.kind inst.realtime } frame2
      = .ok (accRes, frameRest)) :
    replayCycle cy inst dflt m rw now frame
      = .ok ({ m with
          node_states := accRes.states,
          buf_a := m.buf_b,
          buf_b := accRes.db },
        accRes.db,
        accRes.trace
          ++ postProcessingEvents cy.kind now rw.firstTemporaryTimestamp accRes.db
          ++ [CEvent.notifyOne]) := by
  unfold replayCycle
  dsimp only []
  rw [h1]
  dsimp only []
  rw [h2]
  dsimp only []
  rw [h3]

/-- Single-iteration record/replay round-trip: replaying the frame recorded
by a successful Run-mode iteration (recording enabled), with the same
parameters, subscriptions, additional-output subscriptions and peer
databases, on a machine whose write buffer holds the same database,
publishes exactly the database the Run-mode iteration published — provided
no cycle node reads, through a `HistoricInput`, a path written by an
earlier cycle node of the same iteration. -/
theorem runCycle_replayCycle_single {cy : CCycler Val} {inst : TopologyInstances}
    {dflt : String → Option Val} {m mR : CyclerMachine Val} {w : RunWorld Val}
    {rw : ReplayWorld Val} {m2 : CyclerMachine Val} {db : String → Option Val}
    {frame : List (FrameEntry Val)} {tr : List (CEvent Val)}
    (henr : (m.enable_recording && w.shouldRecord) = true)
    (h : runCycle cy inst dflt m w = .ok (m2, db, frame, tr))
    (hpar : rw.paramsAt 1 = w.paramsAt 1)
    (hsub : rw.subscribedAt 1 = w.subscribedAt 1)
    (hfill : rw.shouldBeFilled = w.shouldBeFilled)
    (hpeer : rw.peerDb = w.peerDb)
    (hba : mR.buf_a = m.buf_a)
    (hpw : List.Pairwise (fun a b => ∀ p, CField.historicInput p ∈ b.cycleContext →
      p ∉ a.mainOutputs) cy.cycleNodes) :
    ∃ mR2 dbR trR,
      replayCycle cy inst dflt mR rw w.now frame = .ok (mR2, dbR, trR) ∧
      dbR = db ∧ mR2.buf_a = mR.buf_b ∧ mR2.buf_b = db ∧
      m2.buf_a = m.buf_b ∧ m2.buf_b = db ∧
      m2.enable_recording = m.enable_recording := by
  obtain ⟨acc1, frame1, acc3, hsetup, hcross, hcycle, hdbeq, hframe, hm2eq, _, _⟩ :=
    runCycle_ok_elim henr h
  have hdbR0 : ∀ p, mR.buf_a p
      = ({ cs := m.cycler_state, states := m.node_states, db := m.buf_a,
           frame := [],
           trace := [CEvent.shouldRecordCheck]
             ++ [.subscribedRead 0, .paramsRead 0] } : RunAcc Val).db p := by
    intro p
    show mR.buf_a p = m.buf_a p
    rw [hba]
  obtain ⟨Δs, hΔs, hreplS⟩ := replaySetupNodes_roundtrip hsetup hdbR0
  obtain ⟨Δx, hΔx, hforallx, _⟩ := recordCrossInputs_shape hcross
  obtain ⟨⟨tΔ, htΔ, htmem⟩, ⟨fΔc, hfΔc, hfoff, hfon, hfser⟩⟩ := runCycleNodes_shape hcycle
  obtain ⟨env1, hex, hcsin, hcsout, hfvin, hfvout⟩ :=
    extractCrossInputs_of_recorded hforallx
      { csVars := fun _p => default, fixedVars := fun _g => FrameEntry.nodeState default }
      fΔc
  obtain ⟨db2, hsetupR, hdb2⟩ := hreplS (Δx ++ fΔc)
  obtain ⟨Δc2, hΔc2, hreplC⟩ :=
    @replayCycleNodes_roundtrip Val _ w rw cy (w.paramsAt 1) (w.subscribedAt 1)
      dflt acc1.db hfill hpeer cy.cycleNodes
      { acc1 with
        frame := frame1,
        trace := acc1.trace ++ [CEvent.getNow]
          ++ handoffEvents cy.kind inst.perception w.now
          ++ [.subscribedRead 1, .paramsRead 1]
          ++ readerLockEvents cy.kind inst.realtime }
      acc3
      { env := env1, states := mR.node_states, db := db2,
        trace := [.subscribedRead 0, .paramsRead 0]
          ++ handoffEvents cy.kind inst.perception w.now
          ++ [.subscribedRead 1, .paramsRead 1]
          ++ readerLockEvents cy.kind inst.realtime }
      hcycle (fun nd h2 => h2) hpw
      (by
        intro p
        show db2 p = acc1.db p
        exact hdb2 p)
      (by
        intro p hp
        show env1.csVars p = acc1.cs p
        exact hcsin p hp)
      (by
        intro path hp
        obtain ⟨e2, he2, hfx⟩ := hfvin (CField.historicInput path) hp
          (fun q hq => by cases hq)
        show env1.fixedVars (CField.historicInput path)
          = FrameEntry.historicMap
              ((w.now, acc1.db path) :: w.historic.map fun td => (td.1, td.2 path))
        have he3 : FrameEntry.historicMap
            ((w.now, acc1.db path) :: w.historic.map fun td => (td.1, td.2 path)) = e2 := by
          injection he2
        rw [hfx, ← he3])
      (by
        intro i path hp
        obtain ⟨e2, he2, hfx⟩ := hfvin (CField.input (some i) path) hp
          (fun q hq => by cases hq)
        show env1.fixedVars (CField.input (some i) path)
          = FrameEntry.inputVal (w.peerDb i path)
        have he3 : FrameEntry.inputVal (w.peerDb i path) = e2 := by
          injection he2
        rw [hfx, ← he3])
      (by
        intro i path hp
        obtain ⟨e2, he2, hfx⟩ := hfvin (CField.perceptionInput i path) hp
          (fun q hq => by cases hq)
        show env1.fixedVars (CField.perceptionInput i path)
          = FrameEntry.perceptionMaps
              (w.percPersistent.map fun td => (td.1, (td.2 i).map fun d => d path))
              (w.percTemporary.map fun td => (td.1, (td.2 i).map fun d => d path))
        have he3 : FrameEntry.perceptionMaps
            (w.percPersistent.map fun td => (td.1, (td.2 i).map fun d => d path))
            (w.percTemporary.map fun td => (td.1, (td.2 i).map fun d => d path)) = e2 := by
          injection he2
        rw [hfx, ← he3])
      (by
        intro i path hp
        obtain ⟨e2, he2, hfx⟩ := hfvin (CField.requiredInput (some i) path) hp
          (fun q hq => by cases hq)
        simp only [crossRecordedEntry] at he2
        cases hv : w.peerDb i path with
        | none =>
          rw [hv] at he2
          cases he2
        | some v =>
          rw [hv] at he2
          refine ⟨v, rfl, ?_⟩
          show env1.fixedVars (CField.requiredInput (some i) path)
            = FrameEntry.requiredVal v
          injection he2 with he3
          rw [hfx, ← he3])
      (fun nd _h2 p _hp => rfl)
  have hΔeq : Δc2 = fΔc := List.append_cancel_left (hΔc2.symm.trans hfΔc)
  obtain ⟨accR3, hstep, hfinal⟩ := hreplC []
  rw [hΔeq, List.append_nil, ← hpar, ← hsub] at hstep
  have hframe2 : frame = Δs ++ (Δx ++ fΔc) := by
    rw [hframe, hfΔc]
    show frame1 ++ fΔc = Δs ++ (Δx ++ fΔc)
    rw [hΔx, hΔs]
    simp
  rw [← hframe2] at hsetupR
  have hdbfin : accR3.db = db := by
    funext p
    rw [hfinal p, ← hdbeq]
  refine ⟨_, accR3.db, _, replayCycle_intro hsetupR hex hstep, hdbfin, rfl, hdbfin,
    ?_, ?_, ?_⟩
  · rw [hm2eq]
  · rw [hm2eq, ← hdbeq]
  · rw [hm2eq]

/-- Successive Run-mode iterations of the generated `start` loop
(cyclers.rs:382): each iteration calls the cycle method against that
iteration's live environment and continues from the machine it returns,
collecting the published database and recorded frame of every iteration. -/
def runIterations (cy : CCycler Val) (inst : TopologyInstances)
    (dflt : String → Option Val) :
    CyclerMachine Val → List (RunWorld Val) →
    Except String
      (CyclerMachine Val × List ((String → Option Val) × List (FrameEntry Val)))
  | m, [] => .ok (m, [])
  | m, w :: ws =>
    match runCycle cy inst dflt m w with
    | .error e => .error e
    | .ok (m2, db, frame, _tr) =>
      match runIterations cy inst dflt m2 ws with
      | .error e => .error e
      | .ok (mK, outs) => .ok (mK, (db, frame) :: outs)

/-- Modelled from the spec: in Replay mode the `cycle` method is public and
driven externally, one stored frame per call; the replayer feeds the
recorded frames in order, each with its timestamp and replay-time
environment, collecting each call's published database. -/
def replayIterations (cy : CCycler Val) (inst : TopologyInstances)
    (dflt : String → Option Val) :
    CyclerMachine Val → List (ReplayWorld Val × Nat) →
    List (List (FrameEntry Val)) →
    Except String (CyclerMachine Val × List (String → Option Val))
  | mR, _, [] => .ok (mR, [])
  | _, [], _ :: _ => .error "missing replay environment"
  | mR, (rw, now) :: rws, frame :: frames =>
    match replayCycle cy inst dflt mR rw now frame with
    | .error e => .error e
    | .ok (mR2, dbR, _tr) =>
      match replayIterations cy inst dflt mR2 rws frames with
      | .error e => .error e
      | .ok (mRK, dbs) => .ok (mRK, dbR :: dbs)

/-- **C3** (amended): for every sequence of K iterations executed in Run
mode with recording enabled, replaying the K recorded frames in order
through the same node set in Replay mode — with the same per-iteration
parameters, output subscriptions and peer databases, starting from the
same pair of write buffers — reproduces the published MainOutputs database
of each of the K iterations exactly, provided no cycle node reads, through
a `HistoricInput`, a path written by an earlier cycle node of the same
iteration. -/
theorem record_replay_roundtrip {cy : CCycler Val} {inst : TopologyInstances}
    {dflt : String → Option Val} {m mR mK : CyclerMachine Val}
    {ws : List (RunWorld Val)} {rws : List (ReplayWorld Val × Nat)}
    {outs : List ((String → Option Val) × List (FrameEntry Val))}
    (henr : m.enable_recording = true)
    (h : runIterations cy inst dflt m ws = .ok (mK, outs))
    (hrel : List.Forall₂ (fun (w : RunWorld Val) (rwn : ReplayWorld Val × Nat) =>
      w.shouldRecord = true ∧ rwn.1.paramsAt 1 = w.paramsAt 1 ∧
      rwn.1.subscribedAt 1 = w.subscribedAt 1 ∧
      rwn.1.shouldBeFilled = w.shouldBeFilled ∧
      rwn.1.peerDb = w.peerDb ∧ rwn.2 = w.now) ws rws)
    (hpw : List.Pairwise (fun a b => ∀ p, CField.historicInput p ∈ b.cycleContext →
      p ∉ a.mainOutputs) cy.cycleNodes)
    (hba : mR.buf_a = m.buf_a) (hbb : mR.buf_b = m.buf_b) :
    ∃ mRK, replayIterations cy inst dflt mR rws (outs.map Prod.snd)
        = .ok (mRK, outs.map Prod.fst) := by
  induction hrel generalizing m mR mK outs with
  | nil =>
    cases h
    exact ⟨mR, rfl⟩
  | @cons w rwn ws2 rws2 hr htail ih =>
    obtain ⟨rw1, now1⟩ := rwn
    obtain ⟨hsr, hp1, hs1, hf1, hpe1, hn1⟩ := hr
    unfold runIterations at h
    split at h
    · cases h
    · next m2 db frame tr2 hrc =>
      split at h
      · cases h
      · next mK2 outs2 hrest =>
        cases h
        have henr2 : (m.enable_recording && w.shouldRecord) = true := by
          rw [henr, hsr]
          rfl
        obtain ⟨mR2, dbR, trR, heq, hdbR, hbufa, hbufb, hbufa2, hbufb2, hrec2⟩ :=
          runCycle_replayCycle_single henr2 hrc hp1 hs1 hf1 hpe1 hba hpw
        have hn2 : now1 = w.now := hn1
        rw [← hn2] at heq
        obtain ⟨mRK, hK⟩ := ih (by rw [hrec2, henr]) hrest
          (by rw [hbufa, hbb, hbufa2]) (by rw [hbufb, hbufb2])
        exact ⟨mRK, by
          simp only [List.map_cons, replayIterations]
          rw [heq]
          dsimp only []
          rw [hK]
          dsimp only []
          rw [hdbR]⟩

/-! C3 witness topology: one RealTime cycler, setup node `s` (parameter
`p`, output `a`), cycle node `c` (own input `a`, cycler state `k`,
output `x`). -/

def c3wsetup : CNode Nat :=
  { name := "s", cycleContext := [.parameter "p"], mainOutputs := ["a"],
    run := fun st ctx => .ok (st + 1,
      (fun q => if q = "a" then some (match ctx with
        | [.value v] => v + 100
        | _ => 0) else none),
      fun _p => 0) }

def c3wcycle : CNode Nat :=
  { name := "c", cycleContext := [.input none "a", .cyclerState "k"],
    mainOutputs := ["x"],
    run := fun st ctx => .ok (st,
      (fun q => if q = "x" then some (match ctx with
        | [.optional (some v), .value k] => v * 10 + k
        | _ => 0) else none),
      fun _p => 77) }

def c3wcy : CCycler Nat :=
  { kind := .RealTime, setupNodes := [c3wsetup], cycleNodes := [c3wcycle] }

def c3wm : CyclerMachine Nat :=
  { cycler_state := fun _p => 3, node_states := fun _n => 10,
    buf_a := fun _q => none, buf_b := fun _q => none, enable_recording := true }

def c3ww : RunWorld Nat :=
  { now := 9, shouldRecord := true, paramsAt := fun i _q => 5 + i,
    subscribedAt := fun _i => [], shouldBeFilled := fun _s _q => false,
    peerDb := fun _i _q => none, historic := [],
    percPersistent := [], percTemporary := [],
    firstTemporaryTimestamp := none, sinkFull := false, serFail := fun _e => false }

def c3wrw : ReplayWorld Nat :=
  { paramsAt := c3ww.paramsAt, subscribedAt := c3ww.subscribedAt,
    shouldBeFilled := c3ww.shouldBeFilled, peerDb := c3ww.peerDb,
    firstTemporaryTimestamp := none }

def c3wmR : CyclerMachine Nat :=
  { cycler_state := fun _p => 0, node_states := fun _n => 0,
    buf_a := c3wm.buf_a, buf_b := c3wm.buf_b, enable_recording := false }

def c3wmK : CyclerMachine Nat :=
  match runIterations c3wcy witInst witDflt c3wm [c3ww] with
  | .ok (mk, _) => mk
  | .error _ => c3wm

def c3wouts : List ((String → Option Nat) × List (FrameEntry Nat)) :=
  match runIterations c3wcy witInst witDflt c3wm [c3ww] with
  | .ok (_, outs) => outs
  | .error _ => []

/-- Witness for `record_replay_roundtrip` on a concrete K = 1 run. -/
theorem record_replay_roundtrip_witness :
    ∃ mRK, replayIterations c3wcy witInst witDflt c3wmR [(c3wrw, 9)]
        (c3wouts.map Prod.snd) = .ok (mRK, c3wouts.map Prod.fst) :=
  record_replay_roundtrip rfl
    (show runIterations c3wcy witInst witDflt c3wm [c3ww] = .ok (c3wmK, c3wouts)
      from rfl)
    (List.forall₂_cons.mpr ⟨⟨rfl, rfl, rfl, rfl, rfl, rfl⟩, List.Forall₂.nil⟩)
    (by simp [c3wcy])
    rfl rfl

/-! C3 counterexample topology: setup node writes `a`; cycle node `n1`
writes `x`; cycle node `n2` reads `x` through a `HistoricInput` *after*
`n1` wrote it, and also as an own `RequiredInput`. -/

def c3csetup : CNode Nat :=
  { name := "setup", cycleContext := [.parameter "p"], mainOutputs := ["a"],
    run := fun st ctx => .ok (st + 1,
      (fun q => if q = "a" then some (match ctx with
        | [.value v] => v + 100
        | _ => 0) else none),
      fun _p => 0) }

def c3cone : CNode Nat :=
  { name := "n1", cycleContext := [.input none "a", .cyclerState "s"],
    mainOutputs := ["x"],
    run := fun st ctx => .ok (st,
      (fun q => if q = "x" then some (match ctx with
        | [.optional (some v), .value s] => v + s
        | _ => 0) else none),
      fun _p => 77) }

def c3ctwo : CNode Nat :=
  { name := "n2", cycleContext := [.historicInput "x", .requiredInput none "x"],
    mainOutputs := ["y"],
    run := fun st ctx => .ok (st,
      (fun q => if q = "y" then some (match ctx with
        | [.timeMap tm, .value v] =>
            v * 1000 + tm.foldl (fun a2 td => a2 + (td.2.getD 0)) 0
        | _ => 0) else none),
      fun _p => 0) }

def c3ccy : CCycler Nat :=
  { kind := .RealTime, setupNodes := [c3csetup], cycleNodes := [c3cone, c3ctwo] }

def c3cm : CyclerMachine Nat :=
  { cycler_state := fun _p => 3, node_states := fun _n => 10,
    buf_a := fun q => if q = "x" then some 50 else none,
    buf_b := fun _q => none, enable_recording := true }

def c3cw : RunWorld Nat :=
  { now := 42, shouldRecord := true, paramsAt := fun i _q => 7 + i,
    subscribedAt := fun _i => [], shouldBeFilled := fun _s _q => false,
    peerDb := fun _i _q => none,
    historic := [(41, fun q => if q = "x" then some 8 else none)],
    percPersistent := [], percTemporary := [],
    firstTemporaryTimestamp := some 40, sinkFull := false,
    serFail := fun _e => false }

def c3crw : ReplayWorld Nat :=
  { paramsAt := c3cw.paramsAt, subscribedAt := c3cw.subscribedAt,
    shouldBeFilled := c3cw.shouldBeFilled, peerDb := c3cw.peerDb,
    firstTemporaryTimestamp := some 40 }

def c3cmR : CyclerMachine Nat :=
  { cycler_state := fun _p => 999, node_states := fun _n => 888,
    buf_a := c3cm.buf_a, buf_b := c3cm.buf_b, enable_recording := false }

def c3cframe : List (FrameEntry Nat) :=
  match runCycle c3ccy witInst witDflt c3cm c3cw with
  | .ok (_, _, fr, _) => fr
  | .error _ => []

def c3cdbRun : String → Option Nat :=
  match runCycle c3ccy witInst witDflt c3cm c3cw with
  | .ok (_, d, _, _) => d
  | .error _ => fun _q => none

def c3cdbReplay : String → Option Nat :=
  match replayCycle c3ccy witInst witDflt c3cmR c3crw 42 c3cframe with
  | .ok (_, d, _) => d
  | .error _ => fun _q => none

/-- C3 counterexample to the unconditional round-trip claim: node `n2`
reads `x` through a `HistoricInput` after `n1` wrote `x` in the same
iteration.  The historic now-entry is recorded *before* the cycle nodes
run (it holds the stale published value 50), while Run mode resolves it
live (seeing `n1`'s fresh 110): with identical parameters, subscriptions,
peer databases and write buffers, the run publishes `y = 110118` but the
replay of its own recorded frame publishes `y = 110058`. -/
theorem record_replay_counterexample :
    c3cm.enable_recording = true ∧ c3cw.shouldRecord = true ∧
    c3crw.paramsAt 1 = c3cw.paramsAt 1 ∧
    c3crw.subscribedAt 1 = c3cw.subscribedAt 1 ∧
    c3crw.shouldBeFilled = c3cw.shouldBeFilled ∧
    c3crw.peerDb = c3cw.peerDb ∧
    c3cmR.buf_a = c3cm.buf_a ∧ c3cmR.buf_b = c3cm.buf_b ∧
    (∃ res, runCycle c3ccy witInst witDflt c3cm c3cw = .ok res ∧
      res.2.1 = c3cdbRun ∧ res.2.2.1 = c3cframe) ∧
    (∃ resR, replayCycle c3ccy witInst witDflt c3cmR c3crw c3cw.now c3cframe
        = .ok resR ∧ resR.2.1 = c3cdbReplay) ∧
    c3cdbRun "y" = some 110118 ∧ c3cdbReplay "y" = some 110058 ∧
    c3cdbReplay "y" ≠ c3cdbRun "y" :=
  ⟨rfl, rfl, rfl, rfl, rfl, rfl, rfl, rfl,
    ⟨_, rfl, rfl, rfl⟩, ⟨_, rfl, rfl⟩, rfl, rfl, by decide⟩

end CyclerModel

end Hulk
